import Mathlib

/-!
ptsim: page allocation, page tables and address translation.

A shallow embedding of `src/ptsim.c`.

* The global `unsigned char mem[MEM_SIZE]` is a value `Mem`, a map from byte index to byte
  value, passed into and returned from every operation.
* C `int` arguments (`proc_num`, `page_count`, `vaddr`, `value`, and the addresses computed
  from them) are `Int`; loop counters and frame numbers, which the code only ever uses with
  values in `0..PAGE_COUNT`, are `Nat`.
* An access `mem[a]` with `a` outside `0 .. MEM_SIZE-1` is undefined behaviour in C; the
  embedding reports it as a fault (`none`, `Outcome.fault`) instead of giving it a meaning.
* `printf(...); exit(1)` is the outcome `Outcome.exit`, carrying the out-of-memory message
  and the contents of `mem` at the moment the program stops.
-/

namespace Ptsim

/-! ## Constants (lines 6-11) -/

abbrev MEM_SIZE : Nat := 16384
abbrev PAGE_SIZE : Nat := 256
abbrev PAGE_COUNT : Nat := 64
abbrev PAGE_SHIFT : Nat := 8
abbrev PTP_OFFSET : Nat := 64

/-- Simulated RAM: the byte stored at each index of `mem`. -/
abbrev Mem := Nat → Nat

/-- The assignment `mem[a] = v` for an index and a byte value already known to be in range. -/
def Mem.set (mem : Mem) (a v : Nat) : Mem := fun x => if x = a then v else mem x

/-- The read `mem[addr]` at a computed `int` address; `none` when the index is out of range
(not in `0 .. MEM_SIZE-1`, see `load_eq_range`). -/
def load (mem : Mem) (addr : Int) : Option Nat :=
  if 0 ≤ addr ∧ addr.toNat < MEM_SIZE then some (mem addr.toNat) else none

/-- The assignment `mem[addr] = value` of an `int` to an `unsigned char` cell: the value is
reduced modulo 256; `none` when the index is out of range (see `store_eq_range`). -/
def store (mem : Mem) (addr value : Int) : Option Mem :=
  if 0 ≤ addr ∧ addr.toNat < MEM_SIZE then some (mem.set addr.toNat (value % 256).toNat) else none

/-- Convert a page,offset into an address: `(page << PAGE_SHIFT) | offset`. -/
def get_address (page offset : Int) : Int :=
  Int.lor (page <<< (PAGE_SHIFT : Int)) offset

/-- Initialize RAM: all zero, then the zero page is marked allocated. -/
def initialize_mem : Mem :=
  Mem.set (fun _ => 0) (get_address 0 0).toNat 1

/-- Get the page table page for a given process. -/
def get_page_table (proc_num : Int) (mem : Mem) : Option Nat :=
  load mem (get_address 0 (PTP_OFFSET + proc_num))

/-- The first-fit scan shared by `setup_page_table` (lines 52-58) and the inner loop of
`find_free_pages` (lines 66-72): `for (j = ...; j < PAGE_COUNT; j++) if (mem[j] == 0)
{ page = j; mem[j] = 1; stop }`, with `n` iterations left; the result is `0` when the loop
runs to its end. -/
def first_fit_scan (mem : Mem) : Nat → Nat → Nat × Mem
  | 0, _ => (0, mem)
  | n + 1, j => if mem j = 0 then (j, mem.set j 1) else first_fit_scan mem n (j + 1)

/-- Allocate a page for a page table: the returned frame (0 = none free) and the new memory. -/
def setup_page_table (mem : Mem) : Nat × Mem :=
  first_fit_scan mem (PAGE_COUNT - 1) 1

/-- The context of an out-of-memory exit. -/
inductive Oom where
  | page_table (proc_num : Int)
  | page (proc_num : Int) (i : Nat)
  deriving DecidableEq, Repr

/-- The line printed before `exit(1)`. -/
def Oom.message : Oom → String
  | .page_table p => "OOM: proc " ++ toString p ++ ": page table\n"
  | .page p i => "OOM: proc " ++ toString p ++ ": page " ++ toString i ++ "\n"

/-- How a call that may stop the program ends. -/
inductive Outcome where
  | ok (mem : Mem)
  | exit (ctx : Oom) (mem : Mem)
  | fault

/-- The outer loop of `find_free_pages`, with `n` iterations left and loop counter `i`. -/
def find_free_pages_loop (proc_num : Int) (page_table : Int) : Nat → Nat → Mem → Outcome
  | 0, _, mem => .ok mem
  | n + 1, i, mem =>
    match first_fit_scan mem (PAGE_COUNT - 1) 1 with
    | (page, mem1) =>
      if page = 0 then .exit (.page proc_num i) mem1
      else
        match store mem1 (get_address page_table i) page with
        | none => .fault
        | some mem2 => find_free_pages_loop proc_num page_table n (i + 1) mem2

/-- Allocate `page_count` data pages and enter them in the page table. -/
def find_free_pages (proc_num page_count page_table : Int) (mem : Mem) : Outcome :=
  find_free_pages_loop proc_num page_table page_count.toNat 0 mem

/-- Allocate pages for a new process: the page table and `page_count` data pages. -/
def new_process (proc_num page_count : Int) (mem : Mem) : Outcome :=
  match setup_page_table mem with
  | (page_table, mem1) =>
    if page_table = 0 then .exit (.page_table proc_num) mem1
    else
      match find_free_pages proc_num page_count page_table mem1 with
      | .ok mem2 =>
        match store mem2 (get_address 0 (PTP_OFFSET + proc_num)) page_table with
        | none => .fault
        | some mem3 => .ok mem3
      | r => r

/-- The loop of `free_process_pages`, with `n` iterations left and loop counter `i`. -/
def free_process_pages_loop (page_table : Int) : Nat → Nat → Mem → Option Mem
  | 0, _, mem => some mem
  | n + 1, i, mem =>
    match load mem (get_address page_table i) with
    | none => none
    | some page =>
      if page ≠ 0 then
        match store mem page 0 with
        | none => none
        | some mem1 => free_process_pages_loop page_table n (i + 1) mem1
      else free_process_pages_loop page_table n (i + 1) mem

/-- Mark every page listed in the page table as free. -/
def free_process_pages (page_table : Int) (mem : Mem) : Option Mem :=
  free_process_pages_loop page_table PAGE_COUNT 0 mem

/-- Free the page table page and clear the page table pointer. -/
def free_process_page_table (proc_num page_table : Int) (mem : Mem) : Option Mem :=
  match store mem page_table 0 with
  | none => none
  | some mem1 => store mem1 (get_address 0 (PTP_OFFSET + proc_num)) 0

/-- Kill a process: free its pages, its page table and its page table pointer. -/
def kill_process (proc_num : Int) (mem : Mem) : Option Mem :=
  match get_page_table proc_num mem with
  | none => none
  | some page_table =>
    match free_process_pages page_table mem with
    | none => none
    | some mem1 => free_process_page_table proc_num page_table mem1

/-- Translate a virtual address of a process into a physical address. -/
def vaddr_to_paddr (proc_num vaddr : Int) (mem : Mem) : Option Int :=
  match get_page_table proc_num mem with
  | none => none
  | some page_table =>
    let virtual_page : Int := vaddr >>> PAGE_SHIFT
    let offset : Int := Int.land vaddr 255
    match load mem (get_address page_table virtual_page) with
    | none => none
    | some page_table_entry => some (Int.lor ((page_table_entry : Int) <<< (PAGE_SHIFT : Int)) offset)

/-- Store a byte: the physical address that is printed, and the new memory. -/
def store_value (proc_num vaddr value : Int) (mem : Mem) : Option (Int × Mem) :=
  match vaddr_to_paddr proc_num vaddr mem with
  | none => none
  | some phys_addr =>
    match store mem phys_addr value with
    | none => none
    | some mem1 => some (phys_addr, mem1)

/-- Load a byte: the physical address and the value that are printed. -/
def get_value (proc_num vaddr : Int) (mem : Mem) : Option (Int × Nat) :=
  match vaddr_to_paddr proc_num vaddr mem with
  | none => none
  | some phys_addr =>
    match load mem phys_addr with
    | none => none
    | some value => some (phys_addr, value)

/-- The commands of `main` that change memory. -/
inductive Cmd where
  | np (proc_num page_count : Int)
  | kp (proc_num : Int)
  | sb (proc_num vaddr value : Int)
  deriving DecidableEq, Repr

/-- One command of the loop of `main`, for a command that returns. -/
def Cmd.step (mem : Mem) : Cmd → Option Mem
  | .np p c => match new_process p c mem with
    | .ok mem1 => some mem1
    | _ => none
  | .kp p => kill_process p mem
  | .sb p a v => (store_value p a v mem).map Prod.snd

/-- The loop of `main`: the commands run in order, each one returning. -/
def run : List Cmd → Mem → Option Mem
  | [], mem => some mem
  | c :: cs, mem => match c.step mem with
    | none => none
    | some mem1 => run cs mem1

/-! ## Vocabulary of the specification -/

/-- The free frames a process can get: the indices `1..63` with a zero free-map byte, in
ascending order. -/
def free_frames (mem : Mem) : List Nat :=
  (List.range' 1 (PAGE_COUNT - 1)).filter (fun i => mem i = 0)

/-- The number of zero bytes among `mem[0..63]` (the free-frame count of the free map). -/
def free_count (mem : Mem) : Nat :=
  ((List.range PAGE_COUNT).filter (fun i => mem i = 0)).length

/-- The free-map snapshot `mem[0..63]`. -/
def free_map (mem : Mem) : List Nat :=
  (List.range PAGE_COUNT).map mem


/-- The memory after the frames `fs` have been handed out one by one to the page table in
frame `pt`, starting at slot `i`: each frame is marked allocated and entered in its slot. -/
def mark_frames (pt : Nat) : Nat → List Nat → Mem → Mem
  | _, [], mem => mem
  | i, f :: fs, mem => mark_frames pt (i + 1) fs ((mem.set f 1).set (pt * 256 + i) f)

/-- The frames a process of `c` pages owns according to memory: the frame its directory
entry names, and the frames in slots `0..c-1` of the page table in that frame. -/
def assigned_frames (mem : Mem) (id c : Nat) : List Nat :=
  mem (64 + id) :: (List.range c).map (fun i => mem (mem (64 + id) <<< 8 ||| i))

/-- The memory a successful `new_process(id, c)` leaves when `t` is the lowest free frame and
`rest` the free frames above it: `t` is marked, the first `c` frames of `rest` are handed to
the page table in `t`, and the directory entry of `id` is set to `t`. -/
def created (mem : Mem) (t : Nat) (rest : List Nat) (c id : Nat) : Mem :=
  (mark_frames t 0 (rest.take c) (mem.set t 1)).set (64 + id) t

/-- The memory at the end of a call: at its return, or at the moment of `exit(1)`. -/
def Outcome.final_mem : Outcome → Option Mem
  | .ok mem => some mem
  | .exit _ mem => some mem
  | .fault => none

/-- The out-of-memory context of a call that stopped the program. -/
def Outcome.exit_ctx : Outcome → Option Oom
  | .exit ctx _ => some ctx
  | _ => none

/-- A memory state in which frames `0..62` are marked allocated and frame 63 is free (all
other bytes zero). -/
def mem_last_free : Mem := fun a => if a < 63 then 1 else 0


/-- The loop of `print_page_table`, with `n` iterations left and loop counter `i`: the
pairs `(i, page)` it prints, one for every nonzero entry. -/
def print_page_table_loop (page_table : Int) (mem : Mem) : Nat → Nat → Option (List (Nat × Nat))
  | 0, _ => some []
  | n + 1, i =>
    match load mem (get_address page_table i) with
    | none => none
    | some page =>
      match print_page_table_loop page_table mem n (i + 1) with
      | none => none
      | some ps => some (if page ≠ 0 then (i, page) :: ps else ps)

/-- Print the address map from virtual pages to physical: the list of printed pairs. -/
def print_page_table (proc_num : Int) (mem : Mem) : Option (List (Nat × Nat)) :=
  match get_page_table proc_num mem with
  | none => none
  | some page_table => print_page_table_loop page_table mem PAGE_COUNT 0

/-- The memory after `free_process_pages` has walked slots `i .. i+n-1` of the page table in
frame `pt`: every nonzero frame number found there has its byte cleared. -/
def freed_by (mem : Mem) (pt i n : Nat) : Mem := fun a =>
  if a ≠ 0 ∧ a ∈ (List.range' i n).map (fun k => mem (pt * 256 + k)) then 0 else mem a


/-- The frames returned by `n` consecutive calls of `setup_page_table`, in call order, and
the memory after the last call. -/
def setup_page_table_times : Nat → Mem → List Nat × Mem
  | 0, mem => ([], mem)
  | n + 1, mem =>
    match setup_page_table mem with
    | (f, mem1) =>
      match setup_page_table_times n mem1 with
      | (fs, mem2) => (f :: fs, mem2)

/-! ## Address arithmetic -/

theorem get_address_nat (p o : Nat) (h : o < 256) :
    get_address (p : Int) (o : Int) = ((p * 256 + o : Nat) : Int) := by
  unfold get_address
  rw [Int.shiftLeft_coe_nat]
  show ((p <<< PAGE_SHIFT ||| o : Nat) : Int) = _
  have h2 : o < 2 ^ 8 := by omega
  rw [Nat.shiftLeft_eq, Nat.mul_comm p, ← Nat.mul_add_lt_is_or h2]
  congr 1
  omega

theorem lor_zero_left (x : Int) : Int.lor 0 x = x := by
  cases x with
  | ofNat n => show ((0 ||| n : Nat) : Int) = _; simp
  | negSucc n => show Int.negSucc (Nat.ldiff n 0) = _; simp [Nat.ldiff]

theorem get_address_zero (x : Int) : get_address 0 x = x := by
  unfold get_address
  have : (0 : Int) <<< ((PAGE_SHIFT : Nat) : Int) = 0 := by decide
  rw [this, lor_zero_left]

/-! ## Reads and writes -/

@[simp] theorem Mem.set_same (mem : Mem) (a v : Nat) : mem.set a v a = v := by
  simp [Mem.set]

@[simp] theorem Mem.set_other (mem : Mem) (a v x : Nat) (h : x ≠ a) : mem.set a v x = mem x := by
  simp [Mem.set, h]

theorem Mem.set_apply (mem : Mem) (a v x : Nat) :
    mem.set a v x = if x = a then v else mem x := rfl

theorem load_eq_range (mem : Mem) (addr : Int) :
    load mem addr = if 0 ≤ addr ∧ addr < (MEM_SIZE : Int) then some (mem addr.toNat) else none := by
  simp only [load, MEM_SIZE]
  by_cases h : 0 ≤ addr ∧ addr.toNat < 16384
  · rw [if_pos h, if_pos (by constructor <;> omega)]
  · rw [if_neg h, if_neg (by intro e; apply h; constructor <;> omega)]

theorem store_eq_range (mem : Mem) (addr value : Int) :
    store mem addr value =
      if 0 ≤ addr ∧ addr < (MEM_SIZE : Int)
      then some (mem.set addr.toNat (value % 256).toNat) else none := by
  simp only [store, MEM_SIZE]
  by_cases h : 0 ≤ addr ∧ addr.toNat < 16384
  · rw [if_pos h, if_pos (by constructor <;> omega)]
  · rw [if_neg h, if_neg (by intro e; apply h; constructor <;> omega)]

theorem load_nat (mem : Mem) (a : Nat) (h : a < 16384) : load mem (a : Int) = some (mem a) := by
  simp only [load, MEM_SIZE]
  rw [if_pos (by constructor <;> omega)]
  simp

theorem store_nat (mem : Mem) (a v : Nat) (h : a < 16384) (hv : v < 256) :
    store mem (a : Int) (v : Int) = some (mem.set a v) := by
  simp only [store, MEM_SIZE]
  rw [if_pos (by constructor <;> omega)]
  have : ((v : Int) % 256).toNat = v := by omega
  simp [this]

/-! ## The free list -/

theorem mem_free_frames (mem : Mem) (f : Nat) :
    f ∈ free_frames mem ↔ 1 ≤ f ∧ f < 64 ∧ mem f = 0 := by
  simp only [free_frames, PAGE_COUNT, List.mem_filter, List.mem_range', decide_eq_true_eq]
  constructor
  · rintro ⟨⟨i, hi, rfl⟩, h0⟩
    refine ⟨by omega, by omega, h0⟩
  · rintro ⟨h1, h2, h0⟩
    exact ⟨⟨f - 1, by omega, by omega⟩, h0⟩

theorem free_frames_sorted (mem : Mem) : (free_frames mem).Pairwise (fun a b => a < b) :=
  List.Pairwise.sublist (List.filter_sublist _) (List.pairwise_lt_range' 1 (PAGE_COUNT - 1))

theorem free_frames_nodup (mem : Mem) : (free_frames mem).Nodup :=
  (free_frames_sorted mem).imp (fun h => Nat.ne_of_lt h)

theorem free_frames_length_le (mem : Mem) : (free_frames mem).length ≤ 63 := by
  have := List.length_filter_le (fun i => decide (mem i = 0)) (List.range' 1 (PAGE_COUNT - 1))
  simpa [free_frames] using this

theorem free_frames_congr (mem mem1 : Mem) (h : ∀ j, 1 ≤ j → j < 64 → mem1 j = mem j) :
    free_frames mem1 = free_frames mem := by
  unfold free_frames
  apply List.filter_congr
  intro x hx
  simp only [PAGE_COUNT, List.mem_range'] at hx
  obtain ⟨i, hi, rfl⟩ := hx
  rw [h (1 + 1 * i) (by omega) (by omega)]

theorem free_frames_set_high (mem : Mem) (a v : Nat) (h : 64 ≤ a) :
    free_frames (mem.set a v) = free_frames mem :=
  free_frames_congr mem _ (fun j _ hj => Mem.set_other mem a v j (by omega))

theorem free_frames_set_head (mem : Mem) (f : Nat) (rest : List Nat)
    (h : free_frames mem = f :: rest) : free_frames (mem.set f 1) = rest := by
  have hnd := free_frames_nodup mem
  rw [h] at hnd
  have hf : f ∉ rest := (List.nodup_cons.mp hnd).1
  have e : free_frames (mem.set f 1) = (free_frames mem).filter (fun x => decide (x ≠ f)) := by
    unfold free_frames
    rw [List.filter_filter]
    apply List.filter_congr
    intro x _
    by_cases hx : x = f
    · subst hx; simp
    · simp [Mem.set_other mem f 1 x hx, hx]
  rw [e, h, List.filter_cons]
  simp only [ne_eq, not_true_eq_false, decide_False, Bool.false_eq_true, if_false]
  apply List.filter_eq_self.mpr
  intro a ha
  have : a ≠ f := fun e => hf (e ▸ ha)
  simp [this]

theorem free_frames_head_least (mem : Mem) (f : Nat) (rest : List Nat)
    (h : free_frames mem = f :: rest) (j : Nat) (h1 : 1 ≤ j) (hj : j < f) : mem j ≠ 0 := by
  intro h0
  have hf : f ∈ free_frames mem := by rw [h]; exact List.mem_cons_self _ _
  have hf64 := ((mem_free_frames mem f).mp hf).2.1
  have hjm : j ∈ free_frames mem := (mem_free_frames mem j).mpr ⟨h1, by omega, h0⟩
  have hs := free_frames_sorted mem
  rw [h] at hjm hs
  rcases List.mem_cons.mp hjm with e | hr
  · omega
  · have := (List.pairwise_cons.mp hs).1 j hr
    omega

/-! ## The first-fit scan -/

theorem first_fit_scan_eq (mem : Mem) (n j : Nat) :
    first_fit_scan mem n j =
      match (List.range' j n).filter (fun i => mem i = 0) with
      | [] => (0, mem)
      | f :: _ => (f, mem.set f 1) := by
  induction n generalizing j with
  | zero => simp [first_fit_scan]
  | succ n ih =>
    rw [first_fit_scan, List.range'_succ, List.filter_cons]
    by_cases h : mem j = 0
    · simp [h]
    · simp [h, ih]

theorem setup_page_table_nil (mem : Mem) (h : free_frames mem = []) :
    setup_page_table mem = (0, mem) := by
  unfold setup_page_table
  rw [first_fit_scan_eq]
  unfold free_frames at h
  rw [h]

theorem setup_page_table_cons (mem : Mem) (f : Nat) (rest : List Nat)
    (h : free_frames mem = f :: rest) : setup_page_table mem = (f, mem.set f 1) := by
  unfold setup_page_table
  rw [first_fit_scan_eq]
  unfold free_frames at h
  rw [h]

/-! ## Process creation -/

theorem mark_frames_low (pt : Nat) (hpt : 1 ≤ pt) (fs : List Nat) :
    ∀ (i : Nat) (mem : Mem) (a : Nat), a < 256 →
      mark_frames pt i fs mem a = if a ∈ fs then 1 else mem a := by
  induction fs with
  | nil => intro i mem a _; simp [mark_frames]
  | cons f fs ih =>
    intro i mem a ha
    rw [mark_frames, ih (i + 1) _ a ha]
    by_cases h1 : a ∈ fs
    · simp [h1]
    · have h2 : a ≠ pt * 256 + i := by omega
      by_cases h3 : a = f
      · subst h3; simp [h1, Mem.set_other _ _ _ _ h2]
      · simp [h1, h3, Mem.set_other _ _ _ _ h2]

theorem mark_frames_slot (pt : Nat) (hpt : 1 ≤ pt) (fs : List Nat) :
    ∀ (i : Nat) (mem : Mem) (k : Nat), (∀ f ∈ fs, f < 256) → k < fs.length →
      mark_frames pt i fs mem (pt * 256 + i + k) = fs.getD k 0 := by
  induction fs with
  | nil => intro i mem k _ hk; simp at hk
  | cons f fs ih =>
    intro i mem k hlt hk
    rw [mark_frames]
    cases k with
    | zero =>
      have hstay : ∀ (l : List Nat) (j : Nat) (m : Mem), (∀ g ∈ l, g < 256) → i < j →
          mark_frames pt j l m (pt * 256 + i) = m (pt * 256 + i) := by
        intro l
        induction l with
        | nil => intro j m _ _; simp [mark_frames]
        | cons g l ihl =>
          intro j m hl hij
          rw [mark_frames, ihl (j + 1) _ (fun x hx => hl x (List.mem_cons_of_mem _ hx)) (by omega)]
          have hg := hl g (List.mem_cons_self _ _)
          rw [Mem.set_other _ _ _ _ (by omega), Mem.set_other _ _ _ _ (by omega)]
      simp only [Nat.add_zero]
      rw [hstay fs (i + 1) _ (fun x hx => hlt x (List.mem_cons_of_mem _ hx)) (by omega)]
      simp
    | succ k =>
      have := ih (i + 1) ((mem.set f 1).set (pt * 256 + i) f) k
        (fun x hx => hlt x (List.mem_cons_of_mem _ hx)) (by simpa using hk)
      rw [show pt * 256 + i + (k + 1) = pt * 256 + (i + 1) + k by omega, this]
      simp

theorem mark_frames_other (pt : Nat) (fs : List Nat) :
    ∀ (i : Nat) (mem : Mem) (a : Nat), a ∉ fs →
      (a < pt * 256 + i ∨ pt * 256 + i + fs.length ≤ a) →
      mark_frames pt i fs mem a = mem a := by
  induction fs with
  | nil => intro i mem a _ _; simp [mark_frames]
  | cons f fs ih =>
    intro i mem a ha hr
    have hf : a ≠ f := fun e => ha (e ▸ List.mem_cons_self _ _)
    have hfs : a ∉ fs := fun e => ha (List.mem_cons_of_mem _ e)
    simp only [List.length_cons] at hr
    rw [mark_frames, ih (i + 1) _ a hfs (by omega), Mem.set_other _ _ _ _ (by omega),
      Mem.set_other _ _ _ _ hf]

theorem free_frames_mark_frames (pt : Nat) (hpt : 1 ≤ pt) (fs : List Nat) :
    ∀ (i : Nat) (mem : Mem) (rest : List Nat), free_frames mem = fs ++ rest →
      free_frames (mark_frames pt i fs mem) = rest := by
  induction fs with
  | nil => intro i mem rest h; simpa [mark_frames] using h
  | cons f fs ih =>
    intro i mem rest h
    rw [mark_frames]
    apply ih
    rw [free_frames_set_high _ _ _ (by omega)]
    exact free_frames_set_head mem f (fs ++ rest) (by simpa using h)

theorem find_free_pages_loop_eq (proc_num : Int) (pt : Nat) (hpt : 1 ≤ pt) (hpt2 : pt < 64)
    (n : Nat) : ∀ (i : Nat) (mem : Mem), i + (free_frames mem).length ≤ 256 →
      find_free_pages_loop proc_num pt n i mem =
        if n ≤ (free_frames mem).length
        then .ok (mark_frames pt i ((free_frames mem).take n) mem)
        else .exit (.page proc_num (i + (free_frames mem).length))
          (mark_frames pt i (free_frames mem) mem) := by
  induction n with
  | zero => intro i mem _; simp [find_free_pages_loop, mark_frames]
  | succ n ih =>
    intro i mem hi
    rw [find_free_pages_loop]
    have hscan : first_fit_scan mem (PAGE_COUNT - 1) 1 = setup_page_table mem := rfl
    rw [hscan]
    cases hfs : free_frames mem with
    | nil =>
      rw [setup_page_table_nil mem hfs]
      simp [mark_frames]
    | cons f rest =>
      rw [setup_page_table_cons mem f rest hfs]
      have hf : f ∈ free_frames mem := by rw [hfs]; exact List.mem_cons_self _ _
      obtain ⟨hf1, hf64, _⟩ := (mem_free_frames mem f).mp hf
      rw [hfs] at hi
      simp only [List.length_cons] at hi
      have hne : f ≠ 0 := by omega
      simp only [hne, if_false]
      rw [get_address_nat pt i (by omega),
        store_nat _ (pt * 256 + i) f (by omega) (by omega)]
      simp only []
      have hrest : free_frames ((mem.set f 1).set (pt * 256 + i) f) = rest := by
        rw [free_frames_set_high _ _ _ (by omega)]
        exact free_frames_set_head mem f rest hfs
      rw [ih (i + 1) _ (by rw [hrest]; omega), hrest]
      simp only [List.length_cons, List.take_succ_cons, mark_frames, Nat.add_le_add_iff_right]
      rw [show i + 1 + rest.length = i + (rest.length + 1) by omega]

theorem new_process_nil (p c : Int) (mem : Mem) (h : free_frames mem = []) :
    new_process p c mem = .exit (.page_table p) mem := by
  unfold new_process
  rw [setup_page_table_nil mem h]
  simp

theorem new_process_cons (p c : Int) (mem : Mem) (t : Nat) (rest : List Nat)
    (h : free_frames mem = t :: rest) :
    new_process p c mem =
      if c.toNat ≤ rest.length then
        match store (mark_frames t 0 (rest.take c.toNat) (mem.set t 1)) (64 + p) t with
        | none => .fault
        | some m => .ok m
      else .exit (.page p rest.length) (mark_frames t 0 rest (mem.set t 1)) := by
  have ht : t ∈ free_frames mem := by rw [h]; exact List.mem_cons_self _ _
  obtain ⟨ht1, ht64, _⟩ := (mem_free_frames mem t).mp ht
  have hrest : free_frames (mem.set t 1) = rest := free_frames_set_head mem t rest h
  have hlen := free_frames_length_le mem
  rw [h] at hlen
  simp only [List.length_cons] at hlen
  unfold new_process
  rw [setup_page_table_cons mem t rest h]
  have hne : t ≠ 0 := by omega
  simp only [hne, if_false]
  unfold find_free_pages
  rw [find_free_pages_loop_eq p t ht1 ht64 c.toNat 0 _ (by rw [hrest]; omega), hrest,
    get_address_zero]
  by_cases hc : c.toNat ≤ rest.length
  · simp only [hc, if_true, Nat.zero_add]
    rfl
  · simp only [hc, if_false, Nat.zero_add]

theorem new_process_ok_eq (id c : Nat) (hid : id < 192) (mem : Mem) (t : Nat)
    (rest : List Nat) (h : free_frames mem = t :: rest) (hc : c ≤ rest.length) :
    new_process id c mem = .ok (created mem t rest c id) := by
  have ht : t ∈ free_frames mem := by rw [h]; exact List.mem_cons_self _ _
  obtain ⟨ht1, ht64, _⟩ := (mem_free_frames mem t).mp ht
  rw [new_process_cons id c mem t rest h]
  have hs := store_nat (mark_frames t 0 (rest.take c) (mem.set t 1)) (64 + id) t (by omega)
    (by omega)
  have e : ((c : Nat) : Int).toNat = c := by omega
  rw [e, if_pos hc, show (64 : Int) + (id : Int) = ((64 + id : Nat) : Int) by omega, hs]
  rfl

theorem new_process_ok_inv (p c : Int) (mem mem1 : Mem) (h : new_process p c mem = .ok mem1) :
    ∃ t rest, free_frames mem = t :: rest ∧ c.toNat ≤ rest.length := by
  cases hfs : free_frames mem with
  | nil => rw [new_process_nil p c mem hfs] at h; cases h
  | cons t rest =>
    refine ⟨t, rest, rfl, ?_⟩
    rw [new_process_cons p c mem t rest hfs] at h
    by_contra hc
    simp only [hc, if_false] at h
    cases h

theorem shift_or_eq (t i : Nat) (h : i < 256) : t <<< 8 ||| i = t * 256 + i := by
  have h2 : i < 2 ^ 8 := by omega
  rw [Nat.shiftLeft_eq, Nat.mul_comm t, ← Nat.mul_add_lt_is_or h2]

theorem getD_take (l : List Nat) (c i : Nat) (h : i < c) : (l.take c).getD i 0 = l.getD i 0 := by
  simp [List.getD_eq_getElem?_getD, List.getElem?_take, h]

theorem getD_mem (l : List Nat) (i : Nat) (h : i < l.length) : l.getD i 0 ∈ l := by
  rw [List.getD_eq_getElem _ _ h]
  exact List.getElem_mem _

theorem created_dir (mem : Mem) (t : Nat) (rest : List Nat) (c id : Nat) :
    created mem t rest c id (64 + id) = t := by
  simp [created]

theorem created_low (mem : Mem) (t : Nat) (rest : List Nat) (c id : Nat)
    (h : free_frames mem = t :: rest) (a : Nat) (ha : a < 64) :
    created mem t rest c id a = if a = t ∨ a ∈ rest.take c then 1 else mem a := by
  have ht : t ∈ free_frames mem := by rw [h]; exact List.mem_cons_self _ _
  obtain ⟨ht1, ht64, _⟩ := (mem_free_frames mem t).mp ht
  unfold created
  rw [Mem.set_other _ _ _ _ (by omega), mark_frames_low t ht1 _ 0 _ a (by omega)]
  by_cases h1 : a ∈ rest.take c
  · simp [h1]
  · by_cases h2 : a = t
    · subst h2; simp
    · simp [h1, h2]

theorem created_slot (mem : Mem) (t : Nat) (rest : List Nat) (c id : Nat)
    (h : free_frames mem = t :: rest) (hc : c ≤ rest.length)
    (hid : id < 192) (i : Nat) (hi : i < c) :
    created mem t rest c id (t * 256 + i) = rest.getD i 0 := by
  have ht : t ∈ free_frames mem := by rw [h]; exact List.mem_cons_self _ _
  obtain ⟨ht1, ht64, _⟩ := (mem_free_frames mem t).mp ht
  have hlt : ∀ f ∈ rest.take c, f < 256 := by
    intro f hf
    have : f ∈ free_frames mem := by
      rw [h]; exact List.mem_cons_of_mem _ (List.mem_of_mem_take hf)
    have := ((mem_free_frames mem f).mp this).2.1
    omega
  unfold created
  rw [Mem.set_other _ _ _ _ (by omega)]
  have := mark_frames_slot t ht1 (rest.take c) 0 (mem.set t 1) i hlt
    (by rw [List.length_take]; omega)
  rw [Nat.add_zero] at this
  rw [this, getD_take rest c i hi]

theorem created_high (mem : Mem) (t : Nat) (rest : List Nat) (c id : Nat)
    (h : free_frames mem = t :: rest) (a : Nat) (ha : 64 ≤ a)
    (hd : a ≠ 64 + id) (hr : a < t * 256 ∨ t * 256 + c ≤ a) :
    created mem t rest c id a = mem a := by
  have hnot : a ∉ rest.take c := by
    intro hf
    have : a ∈ free_frames mem := by
      rw [h]; exact List.mem_cons_of_mem _ (List.mem_of_mem_take hf)
    have := ((mem_free_frames mem a).mp this).2.1
    omega
  have ht : t ∈ free_frames mem := by rw [h]; exact List.mem_cons_self _ _
  have ht64 := ((mem_free_frames mem t).mp ht).2.1
  unfold created
  rw [Mem.set_other _ _ _ _ hd, mark_frames_other t _ 0 _ a hnot
    (by rw [List.length_take]; omega), Mem.set_other _ _ _ _ (by omega)]

theorem created_free_frames (mem : Mem) (t : Nat) (rest : List Nat) (c id : Nat)
    (h : free_frames mem = t :: rest) :
    free_frames (created mem t rest c id) = rest.drop c := by
  have ht : t ∈ free_frames mem := by rw [h]; exact List.mem_cons_self _ _
  obtain ⟨ht1, _, _⟩ := (mem_free_frames mem t).mp ht
  unfold created
  rw [free_frames_set_high _ _ _ (by omega)]
  apply free_frames_mark_frames t ht1
  rw [free_frames_set_head mem t rest h, List.take_append_drop]

theorem free_count_eq (mem : Mem) :
    free_count mem = (if mem 0 = 0 then 1 else 0) + (free_frames mem).length := by
  have hr : List.range PAGE_COUNT = 0 :: List.range' 1 (PAGE_COUNT - 1) := by decide
  unfold free_count free_frames
  rw [hr, List.filter_cons]
  by_cases h : mem 0 = 0
  · simp [h]; omega
  · simp [h]

/-! ## Translation -/

theorem int_shr_nat (n k : Nat) : ((n : Int) >>> k) = ((n >>> k : Nat) : Int) := rfl

theorem int_land_nat (a b : Nat) : Int.land (a : Int) (b : Int) = ((a &&& b : Nat) : Int) := rfl

theorem nat_and_255 (v : Nat) : v &&& 255 = v % 256 :=
  Nat.and_pow_two_sub_one_eq_mod v 8

theorem nat_shr_8 (v : Nat) : v >>> 8 = v / 256 :=
  Nat.shiftRight_eq_div_pow v 8

theorem get_page_table_nat (id : Nat) (mem : Mem) (hid : 64 + id < 16384) :
    get_page_table id mem = some (mem (64 + id)) := by
  unfold get_page_table
  rw [get_address_zero, show ((PTP_OFFSET : Nat) : Int) + (id : Int) = ((64 + id : Nat) : Int)
    by simp only [PTP_OFFSET]; omega, load_nat mem _ hid]

theorem vaddr_to_paddr_some (p v : Int) (mem : Mem) (t e : Nat)
    (h1 : get_page_table p mem = some t)
    (h2 : load mem (get_address t (v >>> PAGE_SHIFT)) = some e) :
    vaddr_to_paddr p v mem = some (get_address e (Int.land v 255)) := by
  rw [vaddr_to_paddr, h1]
  simp only []
  rw [h2]
  rfl

theorem vaddr_to_paddr_nat (id v : Nat) (mem : Mem) (hid : 64 + id < 16384)
    (hv : v / 256 < 256) (ht : mem (64 + id) * 256 + v / 256 < 16384) :
    vaddr_to_paddr id v mem
      = some ((mem (mem (64 + id) * 256 + v / 256) * 256 + v % 256 : Nat) : Int) := by
  have h2 : load mem (get_address (mem (64 + id)) ((v : Int) >>> PAGE_SHIFT))
      = some (mem (mem (64 + id) * 256 + v / 256)) := by
    rw [int_shr_nat, nat_shr_8, get_address_nat _ _ hv, load_nat mem _ ht]
  rw [vaddr_to_paddr_some id v mem _ _ (get_page_table_nat id mem hid) h2,
    show (255 : Int) = ((255 : Nat) : Int) by rfl, int_land_nat, nat_and_255,
    get_address_nat _ _ (Nat.mod_lt _ (by decide))]

theorem paddr_page (f o : Nat) (h : o < 256) :
    ((f * 256 + o : Nat) : Int) >>> (8 : Nat) = (f : Int) := by
  rw [int_shr_nat, nat_shr_8]
  congr 1
  omega

theorem paddr_offset (f o : Nat) (h : o < 256) :
    Int.land ((f * 256 + o : Nat) : Int) 255 = (o : Int) := by
  rw [show (255 : Int) = ((255 : Nat) : Int) by rfl, int_land_nat, nat_and_255]
  congr 1
  omega

theorem store_value_some (p v b : Int) (mem m : Mem) (pa : Int)
    (h1 : vaddr_to_paddr p v mem = some pa) (h2 : store mem pa b = some m) :
    store_value p v b mem = some (pa, m) := by
  rw [store_value, h1]
  simp only []
  rw [h2]

theorem get_value_some (p v : Int) (mem : Mem) (pa : Int) (x : Nat)
    (h1 : vaddr_to_paddr p v mem = some pa) (h2 : load mem pa = some x) :
    get_value p v mem = some (pa, x) := by
  rw [get_value, h1]
  simp only []
  rw [h2]

theorem store_nat_addr (mem : Mem) (a : Nat) (b : Int) (h : a < 16384) :
    store mem (a : Int) b = some (mem.set a (b % 256).toNat) := by
  simp only [store, MEM_SIZE]
  rw [if_pos (by constructor <;> omega)]
  simp

theorem new_process_exit_eq (id c : Int) (mem : Mem) (t : Nat) (rest : List Nat)
    (h : free_frames mem = t :: rest) (hc : rest.length < c.toNat) :
    new_process id c mem = .exit (.page id rest.length) (mark_frames t 0 rest (mem.set t 1)) := by
  rw [new_process_cons id c mem t rest h, if_neg (by omega)]

theorem range_map_getD (l : List Nat) (c : Nat) (hc : c ≤ l.length) :
    (List.range c).map (fun i => l.getD i 0) = l.take c := by
  apply List.ext_getElem
  · simp [hc]
  · intro i h1 h2
    simp only [List.length_map, List.length_range] at h1
    rw [List.getElem_map, List.getElem_range, List.getElem_take,
      List.getD_eq_getElem _ _ (by omega)]

theorem assigned_frames_created (mem : Mem) (t : Nat) (rest : List Nat) (c id : Nat)
    (h : free_frames mem = t :: rest) (hc : c ≤ rest.length) (hid : id < 192) :
    assigned_frames (created mem t rest c id) id c = (free_frames mem).take (c + 1) := by
  have hlen := free_frames_length_le mem
  rw [h] at hlen
  simp only [List.length_cons] at hlen
  unfold assigned_frames
  rw [created_dir, h, List.take_succ_cons, ← range_map_getD rest c hc]
  congr 1
  apply List.map_congr_left
  intro i hi
  have hi : i < c := List.mem_range.mp hi
  rw [shift_or_eq t i (by omega)]
  exact created_slot mem t rest c id h hc hid i hi


/-! ## Process termination -/

theorem get_address_nat_or (p o : Nat) :
    get_address (p : Int) (o : Int) = ((p <<< 8 ||| o : Nat) : Int) := by
  unfold get_address
  rw [Int.shiftLeft_coe_nat]
  rfl

theorem store_zero (mem : Mem) (a : Nat) (h : a < 16384) :
    store mem (a : Int) 0 = some (mem.set a 0) := by
  rw [store_nat_addr mem a 0 h]
  rfl

theorem free_process_pages_loop_zero (pt : Int) (i : Nat) (mem : Mem) :
    free_process_pages_loop pt 0 i mem = some mem := rfl

theorem free_process_pages_loop_succ (pt : Int) (n i : Nat) (mem : Mem) :
    free_process_pages_loop pt (n + 1) i mem =
      match load mem (get_address pt i) with
      | none => none
      | some page =>
        if page ≠ 0 then
          match store mem page 0 with
          | none => none
          | some mem1 => free_process_pages_loop pt n (i + 1) mem1
        else free_process_pages_loop pt n (i + 1) mem := rfl

theorem free_process_pages_loop_eq (pt : Nat) (hpt1 : 1 ≤ pt) (hpt : pt < 64) (n : Nat) :
    ∀ (i : Nat) (mem : Mem), i + n ≤ 256 →
      (∀ k, i ≤ k → k < i + n → mem (pt * 256 + k) < 256) →
      free_process_pages_loop pt n i mem = some (freed_by mem pt i n) := by
  induction n with
  | zero =>
    intro i mem _ _
    rw [free_process_pages_loop_zero]
    congr 1
    funext a
    simp [freed_by]
  | succ n ih =>
    intro i mem hi hb
    have hbi := hb i (Nat.le_refl i) (by omega)
    rw [free_process_pages_loop_succ, get_address_nat pt i (by omega), load_nat mem _ (by omega)]
    simp only []
    by_cases hp : mem (pt * 256 + i) = 0
    · rw [if_neg (not_not.mpr hp), ih (i + 1) mem (by omega)
        (fun k h1 h2 => hb k (by omega) (by omega))]
      congr 1
      funext a
      simp only [freed_by, List.range'_succ, List.map_cons, List.mem_cons, hp]
      by_cases ha : a = 0
      · simp [ha]
      · by_cases hm : a ∈ List.map (fun k => mem (pt * 256 + k)) (List.range' (i + 1) n)
        · simp [ha, hm]
        · simp [ha, hm]
    · rw [if_pos hp, store_zero mem _ (by omega)]
      simp only []
      have hent : ∀ k, (mem.set (mem (pt * 256 + i)) 0) (pt * 256 + k) = mem (pt * 256 + k) :=
        fun k => Mem.set_other _ _ _ _ (by omega)
      rw [ih (i + 1) _ (by omega) (fun k h1 h2 => by rw [hent]; exact hb k (by omega) (by omega))]
      congr 1
      funext a
      simp only [freed_by, List.range'_succ, List.map_cons, List.mem_cons, hent]
      by_cases ha : a = mem (pt * 256 + i)
      · subst ha
        simp [hp]
      · rw [Mem.set_other _ _ _ _ ha]
        by_cases hm : a ∈ List.map (fun k => mem (pt * 256 + k)) (List.range' (i + 1) n)
        · simp [ha, hm]
        · simp [ha, hm]

theorem free_process_pages_loop_frame (pt : Nat) (hpt : pt < 64) (n : Nat) :
    ∀ (i : Nat) (mem : Mem), i + n ≤ 256 → (∀ a, mem a < 256) →
      ∃ m, free_process_pages_loop pt n i mem = some m ∧
        (∀ a, m a = mem a ∨ m a = 0) ∧ (∀ a, 256 ≤ a → m a = mem a) := by
  induction n with
  | zero =>
    intro i mem _ _
    exact ⟨mem, rfl, fun a => Or.inl rfl, fun a _ => rfl⟩
  | succ n ih =>
    intro i mem hi hb
    rw [free_process_pages_loop_succ, get_address_nat pt i (by omega), load_nat mem _ (by omega)]
    simp only []
    by_cases hp : mem (pt * 256 + i) = 0
    · rw [if_neg (not_not.mpr hp)]
      exact ih (i + 1) mem (by omega) hb
    · have hpb := hb (pt * 256 + i)
      rw [if_pos hp, store_zero mem _ (by omega)]
      simp only []
      have hb1 : ∀ a, (mem.set (mem (pt * 256 + i)) 0) a < 256 := by
        intro a
        rw [Mem.set_apply]
        split
        · omega
        · exact hb a
      obtain ⟨m, hm, h1, h2⟩ := ih (i + 1) _ (by omega) hb1
      refine ⟨m, hm, ?_, ?_⟩
      · intro a
        rcases h1 a with e | e
        · rw [e, Mem.set_apply]
          split
          · exact Or.inr rfl
          · exact Or.inl rfl
        · exact Or.inr e
      · intro a ha
        rw [h2 a ha, Mem.set_other _ _ _ _ (by omega)]

theorem kill_process_some (p : Int) (mem m1 m2 m3 : Mem) (t : Nat)
    (h1 : get_page_table p mem = some t) (h2 : free_process_pages t mem = some m1)
    (h3 : store m1 t 0 = some m2) (h4 : store m2 (get_address 0 (PTP_OFFSET + p)) 0 = some m3) :
    kill_process p mem = some m3 := by
  rw [kill_process, h1]
  simp only []
  rw [h2]
  simp only []
  rw [free_process_page_table, h3]
  simp only []
  exact h4

theorem kill_process_nat (id : Nat) (hid : id < 192) (mem m1 : Mem)
    (ht : mem (64 + id) < 16384)
    (h2 : free_process_pages (mem (64 + id) : Nat) mem = some m1) :
    kill_process id mem = some ((m1.set (mem (64 + id)) 0).set (64 + id) 0) := by
  apply kill_process_some id mem m1 _ _ _ (get_page_table_nat id mem (by omega)) h2
    (store_zero m1 _ ht)
  rw [get_address_zero, show ((PTP_OFFSET : Nat) : Int) + (id : Int) = ((64 + id : Nat) : Int)
    by simp only [PTP_OFFSET]; omega]
  exact store_zero _ _ (by omega)


theorem free_process_pages_frame (mem : Mem) (hb : ∀ a, mem a < 256) :
    ∃ m, free_process_pages ((0 : Nat) : Int) mem = some m ∧
      (∀ a, m a = mem a ∨ m a = 0) ∧ (∀ a, 256 ≤ a → m a = mem a) :=
  free_process_pages_loop_frame 0 (by decide) PAGE_COUNT 0 mem (by decide) hb


/-! ## The allocator -/

theorem setup_page_table_times_eq (n : Nat) :
    ∀ mem : Mem, n ≤ (free_frames mem).length →
      (setup_page_table_times n mem).1 = (free_frames mem).take n ∧
      free_frames (setup_page_table_times n mem).2 = (free_frames mem).drop n := by
  induction n with
  | zero => intro mem _; simp [setup_page_table_times]
  | succ n ih =>
    intro mem hn
    cases h : free_frames mem with
    | nil => rw [h] at hn; simp at hn
    | cons f rest =>
      rw [h] at hn
      simp only [List.length_cons] at hn
      have hrest := free_frames_set_head mem f rest h
      obtain ⟨e1, e2⟩ := ih (mem.set f 1) (by rw [hrest]; omega)
      rw [hrest] at e1 e2
      rw [setup_page_table_times, setup_page_table_cons mem f rest h]
      simp only [List.take_succ_cons, List.drop_succ_cons]
      exact ⟨by rw [e1], e2⟩

theorem setup_page_table_least (mem : Mem) (i : Nat) (h1 : 1 ≤ i) (h63 : i ≤ 63)
    (h0 : mem i = 0) (hl : ∀ j, 1 ≤ j → j < i → mem j ≠ 0) :
    setup_page_table mem = (i, mem.set i 1) := by
  have hi : i ∈ free_frames mem := (mem_free_frames mem i).mpr ⟨h1, by omega, h0⟩
  cases h : free_frames mem with
  | nil => rw [h] at hi; cases hi
  | cons f rest =>
    have hf : f ∈ free_frames mem := by rw [h]; exact List.mem_cons_self _ _
    obtain ⟨hf1, _, hf0⟩ := (mem_free_frames mem f).mp hf
    have hle : f ≤ i := by
      rw [h] at hi
      rcases List.mem_cons.mp hi with e | e
      · omega
      · have hs := free_frames_sorted mem
        rw [h] at hs
        exact Nat.le_of_lt ((List.pairwise_cons.mp hs).1 i e)
    have hfi : f = i := by
      by_contra hne
      exact hl f hf1 (by omega) hf0
    rw [setup_page_table_cons mem f rest h, hfi]

theorem free_process_page_table_some (p t : Int) (mem m1 m2 : Mem)
    (h1 : store mem t 0 = some m1)
    (h2 : store m1 (get_address 0 (PTP_OFFSET + p)) 0 = some m2) :
    free_process_page_table p t mem = some m2 := by
  rw [free_process_page_table, h1]
  simp only []
  exact h2

theorem free_process_page_table_nat (id t : Nat) (hid : id < 192) (ht : t < 16384)
    (mem : Mem) :
    free_process_page_table id t mem = some ((mem.set t 0).set (64 + id) 0) := by
  apply free_process_page_table_some id t mem _ _ (store_zero mem t ht)
  rw [get_address_zero, show ((PTP_OFFSET : Nat) : Int) + (id : Int) = ((64 + id : Nat) : Int)
    by simp only [PTP_OFFSET]; omega]
  exact store_zero _ _ (by omega)


/-! ## Fresh memory -/

theorem initialize_mem_apply (a : Nat) : initialize_mem a = if a = 0 then 1 else 0 := by
  have h : (get_address 0 0).toNat = 0 := by decide
  unfold initialize_mem
  rw [h]
  rfl

theorem free_frames_initialize_mem : free_frames initialize_mem = 1 :: List.range' 2 62 := by
  decide

theorem getD_range (s n i : Nat) (h : i < n) : (List.range' s n).getD i 0 = s + i := by
  rw [List.getD_eq_getElem _ _ (by simpa using h), List.getElem_range']
  omega

theorem take_range_eq (c : Nat) : ∀ s n : Nat, c ≤ n →
    (List.range' s n).take c = List.range' s c := by
  induction c with
  | zero => intro s n _; simp
  | succ c ih =>
    intro s n h
    cases n with
    | zero => omega
    | succ n => rw [List.range'_succ, List.take_succ_cons, ih (s + 1) n (by omega),
        List.range'_succ]

theorem mem_take_range (c j : Nat) (hc : c ≤ 62) :
    j ∈ (List.range' 2 62).take c ↔ 2 ≤ j ∧ j < c + 2 := by
  rw [take_range_eq c 2 62 hc, List.mem_range']
  constructor
  · rintro ⟨i, hi, rfl⟩
    omega
  · rintro ⟨h1, h2⟩
    exact ⟨j - 2, by omega, by omega⟩

theorem kill_process_table (id : Nat) (hid : id < 192) (mem : Mem) (t : Nat)
    (ht : mem (64 + id) = t) (ht1 : 1 ≤ t) (ht64 : t < 64)
    (hb : ∀ k, k < 64 → mem (t * 256 + k) < 256) :
    kill_process id mem = some (((freed_by mem t 0 64).set t 0).set (64 + id) 0) := by
  have h2 : free_process_pages ((mem (64 + id) : Nat) : Int) mem = some (freed_by mem t 0 64) := by
    rw [ht]
    exact free_process_pages_loop_eq t ht1 ht64 64 0 mem (by omega)
      (fun k _ hk => hb k (by omega))
  have := kill_process_nat id hid mem _ (by omega) h2
  rw [ht] at this
  exact this


/-! ## Two processes -/

theorem mark_frames_nonzero (pt : Nat) (fs : List Nat) :
    ∀ (i : Nat) (mem : Mem) (a : Nat), (∀ f ∈ fs, f ≠ 0) → mem a ≠ 0 →
      mark_frames pt i fs mem a ≠ 0 := by
  induction fs with
  | nil => intro i mem a _ h; exact h
  | cons f fs ih =>
    intro i mem a hfs h
    rw [mark_frames]
    apply ih (i + 1) _ a (fun g hg => hfs g (List.mem_cons_of_mem _ hg))
    have hf := hfs f (List.mem_cons_self _ _)
    rw [Mem.set_apply]
    split
    · exact hf
    · rw [Mem.set_apply]
      split
      · omega
      · exact h

theorem created_nonzero (mem : Mem) (t : Nat) (rest : List Nat) (c id : Nat)
    (h : free_frames mem = t :: rest) (a : Nat) (ha : mem a ≠ 0) :
    created mem t rest c id a ≠ 0 := by
  have ht : t ∈ free_frames mem := by rw [h]; exact List.mem_cons_self _ _
  obtain ⟨ht1, _, _⟩ := (mem_free_frames mem t).mp ht
  unfold created
  rw [Mem.set_apply]
  split
  · omega
  · apply mark_frames_nonzero
    · intro f hf
      have : f ∈ free_frames mem := by
        rw [h]; exact List.mem_cons_of_mem _ (List.mem_of_mem_take hf)
      have := ((mem_free_frames mem f).mp this).1
      omega
    · rw [Mem.set_apply]
      split
      · omega
      · exact ha

/-- The state after two successful creations, in terms of the free list before the first:
the directory entries, the page-table slots of both processes, and where their frames lie. -/
theorem two_processes (mem mem1 mem2 : Mem) (a b ca cb : Nat) (ha : a < 192) (hb : b < 192)
    (hab : a ≠ b) (h1 : new_process a ca mem = .ok mem1)
    (h2 : new_process b cb mem1 = .ok mem2) :
    ∃ (t u : Nat) (ra rb : List Nat),
      1 ≤ t ∧ t < 64 ∧ 1 ≤ u ∧ u < 64 ∧ t ≠ u ∧ ca ≤ 62 ∧ cb ≤ 62 ∧
      (∀ f ∈ ra, 1 ≤ f ∧ f < 64 ∧ f ≠ t ∧ f ≠ u ∧ f ∉ rb) ∧
      (∀ g ∈ rb, 1 ≤ g ∧ g < 64 ∧ g ≠ t ∧ g ≠ u) ∧
      ra.length = ca ∧ rb.length = cb ∧ (assigned_frames mem1 a ca).tail = ra ∧
      mem2 (64 + a) = t ∧ mem2 (64 + b) = u ∧
      (∀ i, i < ca → mem2 (t * 256 + i) = ra.getD i 0) ∧
      (∀ j, j < cb → mem2 (u * 256 + j) = rb.getD j 0) := by
  obtain ⟨t, rest, h, hc⟩ := new_process_ok_inv a ca mem mem1 h1
  have hc : ca ≤ rest.length := by omega
  rw [new_process_ok_eq a ca ha mem t rest h hc] at h1
  injection h1 with hm
  subst hm
  obtain ⟨u, rest2, hu, hc2⟩ := new_process_ok_inv b cb _ mem2 h2
  have hc2 : cb ≤ rest2.length := by omega
  rw [new_process_ok_eq b cb hb _ u rest2 hu hc2] at h2
  injection h2 with hm
  subst hm
  have hlen := free_frames_length_le mem
  rw [h] at hlen
  simp only [List.length_cons] at hlen
  have hdrop : rest.drop ca = u :: rest2 := by
    rw [← created_free_frames mem t rest ca a h]; exact hu
  have hnd := free_frames_nodup mem
  rw [h] at hnd
  obtain ⟨htr, hndr⟩ := List.nodup_cons.mp hnd
  have hin : ∀ f, f ∈ rest → 1 ≤ f ∧ f < 64 ∧ f ≠ t := by
    intro f hf
    have hm : f ∈ free_frames mem := by rw [h]; exact List.mem_cons_of_mem _ hf
    obtain ⟨hf1, hf64, _⟩ := (mem_free_frames mem f).mp hm
    exact ⟨hf1, hf64, fun e => htr (e ▸ hf)⟩
  have hur : u ∈ rest := List.mem_of_mem_drop (by rw [hdrop]; exact List.mem_cons_self _ _)
  have hr2 : ∀ g, g ∈ rest2 → g ∈ rest := fun g hg =>
    List.mem_of_mem_drop (by rw [hdrop]; exact List.mem_cons_of_mem _ hg)
  have hdisj := List.disjoint_take_drop hndr (Nat.le_refl ca)
  rw [hdrop] at hdisj
  have hnd2 : (u :: rest2).Nodup := by rw [← hdrop]; exact hndr.sublist (List.drop_sublist _ _)
  obtain ⟨hu1, hu64, hut⟩ := hin u hur
  have ht : t ∈ free_frames mem := by rw [h]; exact List.mem_cons_self _ _
  obtain ⟨ht1, ht64, _⟩ := (mem_free_frames mem t).mp ht
  have hlen2 := free_frames_length_le (created mem t rest ca a)
  rw [hu] at hlen2
  simp only [List.length_cons] at hlen2
  refine ⟨t, u, rest.take ca, rest2.take cb, ht1, ht64, hu1, hu64, fun e => hut e.symm,
    by omega, by omega, ?_, ?_,
    by rw [List.length_take]; omega, by rw [List.length_take]; omega, ?_, ?_,
    created_dir _ u rest2 cb b, ?_, ?_⟩
  · intro f hf
    obtain ⟨hf1, hf64, hft⟩ := hin f (List.mem_of_mem_take hf)
    refine ⟨hf1, hf64, hft, ?_, ?_⟩
    · intro e
      exact hdisj hf (e ▸ List.mem_cons_self _ _)
    · intro hg
      exact hdisj hf (List.mem_cons_of_mem _ (List.mem_of_mem_take hg))
  · intro g hg
    have hg2 : g ∈ rest2 := List.mem_of_mem_take hg
    obtain ⟨hg1, hg64, hgt⟩ := hin g (hr2 g hg2)
    exact ⟨hg1, hg64, hgt, fun e => (List.nodup_cons.mp hnd2).1 (e ▸ hg2)⟩
  · rw [assigned_frames_created mem t rest ca a h hc ha, h]
    rfl
  · rw [created_high _ u rest2 cb b hu (64 + a) (by omega) (by omega) (Or.inl (by omega))]
    exact created_dir mem t rest ca a
  · intro i hi
    rw [created_high _ u rest2 cb b hu (t * 256 + i) (by omega) (by omega) (by omega),
      created_slot mem t rest ca a h hc ha i hi, getD_take rest ca i hi]
  · intro j hj
    rw [created_slot _ u rest2 cb b hu hc2 hb j hj, getD_take rest2 cb j hj]

/-! ## The claims -/

/-- C1. First-fit allocation: `setup_page_table` returns the least index `i` in `1..63` with
`mem[i] == 0`, sets that byte to 1 and changes no other byte; when no such index exists it
returns 0 and leaves memory unchanged. Frame 0 is never handed out, whatever `mem[0]` is. -/
theorem setup_page_table_first_fit (mem : Mem) :
    (∃ i, 1 ≤ i ∧ i ≤ 63 ∧ mem i = 0 ∧ (∀ j, 1 ≤ j → j < i → mem j ≠ 0) ∧
        (setup_page_table mem).1 = i ∧ (setup_page_table mem).2 i = 1 ∧
        (∀ a, a ≠ i → (setup_page_table mem).2 a = mem a)) ∨
      ((∀ i, 1 ≤ i → i ≤ 63 → mem i ≠ 0) ∧ setup_page_table mem = (0, mem)) := by
  cases h : free_frames mem with
  | nil =>
    right
    refine ⟨?_, setup_page_table_nil mem h⟩
    intro i h1 h63 h0
    have : i ∈ free_frames mem := (mem_free_frames mem i).mpr ⟨h1, by omega, h0⟩
    rw [h] at this
    cases this
  | cons f rest =>
    left
    have hf : f ∈ free_frames mem := by rw [h]; exact List.mem_cons_self _ _
    obtain ⟨hf1, hf64, hf0⟩ := (mem_free_frames mem f).mp hf
    rw [setup_page_table_cons mem f rest h]
    exact ⟨f, hf1, by omega, hf0, free_frames_head_least mem f rest h, rfl,
      Mem.set_same mem f 1, fun a ha => Mem.set_other mem f 1 a ha⟩

/-- C2. Process creation assigns the lowest free frames in order: when `0 ≤ id < 192` and at
least `c+1` of the bytes `mem[1..63]` are zero, `new_process(id, c)` succeeds; with
`f_0 < f_1 < ...` the free frames before the call in ascending order, afterwards the
directory entry `mem[64+id]` is `f_0`, page-table entry `mem[(f_0 << 8) | i]` is `f_{i+1}`
for `i < c`, exactly the free-map bytes at `f_0..f_c` changed from 0 to 1, every other
free-map byte is unchanged, and the free-frame count dropped by `c+1`. -/
theorem new_process_assigns_lowest_free (mem : Mem) (id c : Nat) (hid : id < 192)
    (hfree : c + 1 ≤ (free_frames mem).length) :
    ∃ mem1, new_process id c mem = .ok mem1 ∧
      mem1 (64 + id) = (free_frames mem).getD 0 0 ∧
      (∀ i, i < c →
        mem1 ((free_frames mem).getD 0 0 <<< 8 ||| i) = (free_frames mem).getD (i + 1) 0) ∧
      (∀ k, k ≤ c →
        mem ((free_frames mem).getD k 0) = 0 ∧ mem1 ((free_frames mem).getD k 0) = 1) ∧
      (∀ j, j < 64 → j ∉ (free_frames mem).take (c + 1) → mem1 j = mem j) ∧
      free_frames mem1 = (free_frames mem).drop (c + 1) ∧
      free_count mem1 + (c + 1) = free_count mem := by
  have hlen := free_frames_length_le mem
  cases h : free_frames mem with
  | nil => rw [h] at hfree; simp at hfree
  | cons t rest =>
    rw [h] at hfree hlen
    simp only [List.length_cons] at hfree hlen
    have hc : c ≤ rest.length := by omega
    have ht : t ∈ free_frames mem := by rw [h]; exact List.mem_cons_self _ _
    obtain ⟨ht1, ht64, ht0⟩ := (mem_free_frames mem t).mp ht
    have hlow := created_low mem t rest c id h
    refine ⟨created mem t rest c id, new_process_ok_eq id c hid mem t rest h hc,
      created_dir mem t rest c id, ?_, ?_, ?_, ?_, ?_⟩
    · intro i hi
      rw [List.getD_cons_zero, List.getD_cons_succ, shift_or_eq t i (by omega)]
      exact created_slot mem t rest c id h hc hid i hi
    · intro k hk
      have hm : (t :: rest).getD k 0 ∈ free_frames mem := by
        rw [h]; exact getD_mem _ k (by simp only [List.length_cons]; omega)
      obtain ⟨_, hk64, hk0⟩ := (mem_free_frames mem _).mp hm
      refine ⟨hk0, ?_⟩
      rw [hlow _ hk64]
      cases k with
      | zero => simp
      | succ k =>
        rw [List.getD_cons_succ, ← getD_take rest c k (by omega)]
        have := getD_mem (rest.take c) k (by rw [List.length_take]; omega)
        rw [if_pos (Or.inr this)]
    · intro j hj hnot
      rw [List.take_succ_cons, List.mem_cons, not_or] at hnot
      rw [hlow j hj]
      simp [hnot.1, hnot.2]
    · rw [created_free_frames mem t rest c id h]
      rfl
    · rw [free_count_eq, free_count_eq mem, created_free_frames mem t rest c id h, h,
        hlow 0 (by omega)]
      have h0 : ¬ (0 = t ∨ 0 ∈ rest.take c) := by
        intro e
        rcases e with e | e
        · omega
        · have : 0 ∈ free_frames mem := by
            rw [h]; exact List.mem_cons_of_mem _ (List.mem_of_mem_take e)
          have := ((mem_free_frames mem 0).mp this).1
          omega
      simp only [h0, if_false, List.length_drop, List.length_cons]
      omega

/-- A memory where C2 applies: the freshly initialised memory, process 0 with 2 pages. -/
theorem new_process_assigns_lowest_free_witness :
    ∃ mem1, new_process 0 2 initialize_mem = .ok mem1 ∧
      mem1 (64 + 0) = (free_frames initialize_mem).getD 0 0 ∧
      (∀ i, i < 2 → mem1 ((free_frames initialize_mem).getD 0 0 <<< 8 ||| i)
        = (free_frames initialize_mem).getD (i + 1) 0) ∧
      (∀ k, k ≤ 2 → initialize_mem ((free_frames initialize_mem).getD k 0) = 0 ∧
        mem1 ((free_frames initialize_mem).getD k 0) = 1) ∧
      (∀ j, j < 64 → j ∉ (free_frames initialize_mem).take (2 + 1) →
        mem1 j = initialize_mem j) ∧
      free_frames mem1 = (free_frames initialize_mem).drop (2 + 1) ∧
      free_count mem1 + (2 + 1) = free_count initialize_mem :=
  new_process_assigns_lowest_free initialize_mem 0 2 (by decide) (by decide)

/-- C3. Round-trip translation: after a successful `new_process(id, c)` with
`0 ≤ id < 192`, for every `vpage < c` and `offset < 256`,
`vaddr_to_paddr(id, (vpage << 8) | offset)` returns an address `p` with `p >> 8` equal to the
page-table byte `mem[(table_frame << 8) | vpage]` and `p & 255` equal to `offset`; that byte
is a frame in `1..63` that was free before the call and is marked allocated after it. -/
theorem vaddr_to_paddr_round_trip (mem mem1 : Mem) (id c : Nat) (hid : id < 192)
    (hnew : new_process id c mem = .ok mem1) (vpage offset : Nat) (hv : vpage < c)
    (ho : offset < 256) :
    ∃ p : Int, vaddr_to_paddr id ((vpage <<< 8 ||| offset : Nat) : Int) mem1 = some p ∧
      p >>> (8 : Nat) = ((mem1 (mem1 (64 + id) <<< 8 ||| vpage) : Nat) : Int) ∧
      Int.land p 255 = (offset : Int) ∧
      1 ≤ mem1 (mem1 (64 + id) <<< 8 ||| vpage) ∧ mem1 (mem1 (64 + id) <<< 8 ||| vpage) ≤ 63 ∧
      mem (mem1 (mem1 (64 + id) <<< 8 ||| vpage)) = 0 ∧
      mem1 (mem1 (mem1 (64 + id) <<< 8 ||| vpage)) = 1 := by
  obtain ⟨t, rest, h, hc⟩ := new_process_ok_inv id c mem mem1 hnew
  have hc : c ≤ rest.length := by omega
  have hlen := free_frames_length_le mem
  rw [h] at hlen
  simp only [List.length_cons] at hlen
  rw [new_process_ok_eq id c hid mem t rest h hc] at hnew
  injection hnew with hm
  subst hm
  have ht : t ∈ free_frames mem := by rw [h]; exact List.mem_cons_self _ _
  obtain ⟨ht1, ht64, ht0⟩ := (mem_free_frames mem t).mp ht
  have hvp : vpage < 256 := by omega
  have hdiv : (vpage * 256 + offset) / 256 = vpage := by omega
  have hmod : (vpage * 256 + offset) % 256 = offset := by omega
  have hslot := created_slot mem t rest c id h hc hid vpage hv
  have hfm : rest.getD vpage 0 ∈ free_frames mem := by
    rw [h]; exact List.mem_cons_of_mem _ (getD_mem rest vpage (by omega))
  obtain ⟨hf1, hf64, hf0⟩ := (mem_free_frames mem _).mp hfm
  have hft : rest.getD vpage 0 ∈ rest.take c := by
    rw [← getD_take rest c vpage hv]
    exact getD_mem _ vpage (by rw [List.length_take]; omega)
  rw [shift_or_eq vpage offset ho, created_dir, shift_or_eq t vpage hvp, hslot]
  refine ⟨_, vaddr_to_paddr_nat id _ _ (by omega) (by omega) ?_, ?_, ?_, hf1, by omega, hf0, ?_⟩
  · rw [created_dir, hdiv]; omega
  · rw [created_dir, hdiv, hmod, hslot]
    exact paddr_page _ _ ho
  · rw [created_dir, hdiv, hmod, hslot]
    exact paddr_offset _ _ ho
  · rw [created_low mem t rest c id h _ hf64, if_pos (Or.inr hft)]

/-- C3 at a concrete input: process 5 with 3 pages on fresh memory, page 2, offset 17. -/
theorem vaddr_to_paddr_round_trip_witness :
    ∃ mem1, new_process 5 3 initialize_mem = .ok mem1 ∧
      ∃ p : Int, vaddr_to_paddr 5 ((2 <<< 8 ||| 17 : Nat) : Int) mem1 = some p ∧
        p >>> (8 : Nat) = ((mem1 (mem1 (64 + 5) <<< 8 ||| 2) : Nat) : Int) ∧
        Int.land p 255 = ((17 : Nat) : Int) ∧
        1 ≤ mem1 (mem1 (64 + 5) <<< 8 ||| 2) ∧ mem1 (mem1 (64 + 5) <<< 8 ||| 2) ≤ 63 ∧
        initialize_mem (mem1 (mem1 (64 + 5) <<< 8 ||| 2)) = 0 ∧
        mem1 (mem1 (mem1 (64 + 5) <<< 8 ||| 2)) = 1 :=
  ⟨_, new_process_ok_eq 5 3 (by decide) initialize_mem 1 (List.range' 2 62) (by decide)
      (by decide),
    vaddr_to_paddr_round_trip initialize_mem _ 5 3 (by decide)
      (new_process_ok_eq 5 3 (by decide) initialize_mem 1 (List.range' 2 62) (by decide)
        (by decide)) 2 17 (by decide) (by decide)⟩

/-- Store/load round trip for a non-negative virtual address, given as a natural number. -/
theorem store_get_round_trip_nat (mem mem1 : Mem) (id c : Nat) (hid : id < 192)
    (_hc : 1 ≤ c) (hnew : new_process id c mem = .ok mem1) (v : Nat) (hv : v >>> 8 < c)
    (b : Int) :
    ∃ (p : Int) (mem2 : Mem), store_value id v b mem1 = some (p, mem2) ∧
      get_value id v mem2 = some (p, (b % 256).toNat) ∧
      (0 ≤ b → b ≤ 255 → (((b % 256).toNat : Nat) : Int) = b) := by
  obtain ⟨t, rest, h, hc⟩ := new_process_ok_inv id c mem mem1 hnew
  have hc : c ≤ rest.length := by omega
  have hlen := free_frames_length_le mem
  rw [h] at hlen
  simp only [List.length_cons] at hlen
  rw [new_process_ok_eq id c hid mem t rest h hc] at hnew
  injection hnew with hm
  subst hm
  have ht : t ∈ free_frames mem := by rw [h]; exact List.mem_cons_self _ _
  obtain ⟨ht1, ht64, ht0⟩ := (mem_free_frames mem t).mp ht
  rw [nat_shr_8] at hv
  have hslot := created_slot mem t rest c id h hc hid (v / 256) hv
  have hfr : rest.getD (v / 256) 0 ∈ rest := getD_mem rest (v / 256) (by omega)
  have hfm : rest.getD (v / 256) 0 ∈ free_frames mem := by
    rw [h]; exact List.mem_cons_of_mem _ hfr
  obtain ⟨hf1, hf64, hf0⟩ := (mem_free_frames mem _).mp hfm
  have hnd := free_frames_nodup mem
  rw [h] at hnd
  have hne : rest.getD (v / 256) 0 ≠ t := fun e => (List.nodup_cons.mp hnd).1 (e ▸ hfr)
  have hmod : v % 256 < 256 := Nat.mod_lt _ (by decide)
  have hdir := created_dir mem t rest c id
  have htr := vaddr_to_paddr_nat id v (created mem t rest c id) (by omega) (by omega)
    (by rw [hdir]; omega)
  rw [hdir, hslot] at htr
  have hst := store_nat_addr (created mem t rest c id) (rest.getD (v / 256) 0 * 256 + v % 256)
    b (by omega)
  refine ⟨_, _, store_value_some _ _ _ _ _ _ htr hst, ?_, by omega⟩
  have hdir2 : ((created mem t rest c id).set (rest.getD (v / 256) 0 * 256 + v % 256)
      (b % 256).toNat) (64 + id) = t := by
    rw [Mem.set_other _ _ _ _ (by omega), hdir]
  have hslot2 : ((created mem t rest c id).set (rest.getD (v / 256) 0 * 256 + v % 256)
      (b % 256).toNat) (t * 256 + v / 256) = rest.getD (v / 256) 0 := by
    rw [Mem.set_other _ _ _ _ (by omega), hslot]
  have htr2 := vaddr_to_paddr_nat id v ((created mem t rest c id).set
    (rest.getD (v / 256) 0 * 256 + v % 256) (b % 256).toNat) (by omega) (by omega)
    (by rw [hdir2]; omega)
  rw [hdir2, hslot2] at htr2
  refine get_value_some _ _ _ _ _ htr2 ?_
  rw [load_nat _ _ (by omega), Mem.set_same]

/-- C4, refuted as stated: after `np 0 2` on fresh memory the address `v = -1` satisfies
`v >> 8 < 2` (`v >> 8` is `-1`), but `vaddr_to_paddr(0, -1)` reads the page-table entry at
index `(1 << 8) | -1 = -1`, outside `mem`: no address is returned and `store_value(0, -1, 7)`
stores nothing that could be read back. -/
theorem store_value_negative_address_counterexample :
    ((-1 : Int) >>> (8 : Nat)) < ((2 : Nat) : Int) ∧
      (run [.np 0 2] initialize_mem).map
        (fun m => (vaddr_to_paddr 0 (-1) m, (store_value 0 (-1) 7 m).map Prod.fst,
          (get_value 0 (-1) m).map Prod.fst)) = some (none, none, none) := by
  decide

/-- C4, amended. Store/load round trip: after a successful `new_process(id, c)` with
`0 ≤ id < 192` and `c ≥ 1`, for every virtual address `v` with `0 ≤ v` and `v >> 8 < c` and
every integer `b`, `store_value(id, v, b)` followed by `get_value(id, v)` reads back `b`
modulo 256 (exactly `b` when `0 ≤ b ≤ 255`), and both resolve `v` to the same physical
address. -/
theorem store_value_get_value_round_trip (mem mem1 : Mem) (id c : Nat) (hid : id < 192)
    (hc : 1 ≤ c) (hnew : new_process id c mem = .ok mem1) (v : Int) (hv0 : 0 ≤ v)
    (hv : v >>> (8 : Nat) < (c : Int)) (b : Int) :
    ∃ (p : Int) (mem2 : Mem), store_value id v b mem1 = some (p, mem2) ∧
      get_value id v mem2 = some (p, (b % 256).toNat) ∧
      (0 ≤ b → b ≤ 255 → (((b % 256).toNat : Nat) : Int) = b) := by
  obtain ⟨n, rfl⟩ := Int.eq_ofNat_of_zero_le hv0
  rw [int_shr_nat] at hv
  exact store_get_round_trip_nat mem mem1 id c hid hc hnew n (Int.ofNat_lt.mp hv) b

/-- C4 amended, at a concrete input: process 0 with 2 pages on fresh memory, address 0x105,
value 300. -/
theorem store_value_get_value_round_trip_witness :
    ∃ mem1, new_process 0 2 initialize_mem = .ok mem1 ∧
      ∃ (p : Int) (mem2 : Mem), store_value 0 261 300 mem1 = some (p, mem2) ∧
        get_value 0 261 mem2 = some (p, ((300 : Int) % 256).toNat) ∧
        (0 ≤ (300 : Int) → (300 : Int) ≤ 255 →
          (((((300 : Int) % 256).toNat : Nat)) : Int) = 300) :=
  ⟨_, new_process_ok_eq 0 2 (by decide) initialize_mem 1 (List.range' 2 62) (by decide)
      (by decide),
    store_value_get_value_round_trip initialize_mem _ 0 2 (by decide) (by decide)
      (new_process_ok_eq 0 2 (by decide) initialize_mem 1 (List.range' 2 62) (by decide)
        (by decide)) 261 (by decide) (by decide) 300⟩

/-- C6, refuted as stated: with frame 63 the only free frame, `new_process(0, 1)` takes it
as page table, runs out of memory at page 0 and stops the program; the free-map byte of
frame 63, which was 0 before the call, is 1 at that point. -/
theorem new_process_rollback_counterexample :
    free_frames mem_last_free = [63] ∧
      (new_process 0 1 mem_last_free).exit_ctx = some (.page 0 0) ∧
      mem_last_free 63 = 0 ∧
      (new_process 0 1 mem_last_free).final_mem.map (fun m => m 63) = some 1 := by
  decide

/-- C6, amended. When at least one but fewer than `c+1` of the frames `1..63` are free
(`n` of them), `new_process(id, c)` stops the program with an out-of-memory exit at page
`n-1` and rolls nothing back: at that point every frame of `1..63` that was free is marked
allocated (byte 1) and every other free-map byte is unchanged, so no frame is free. -/
theorem new_process_oom_marks_all_free (mem : Mem) (id : Int) (c : Nat)
    (h1 : 1 ≤ (free_frames mem).length) (h2 : (free_frames mem).length < c + 1) :
    ∃ m, new_process id c mem = .exit (.page id ((free_frames mem).length - 1)) m ∧
      (∀ j, j < 64 → m j = if 1 ≤ j ∧ mem j = 0 then 1 else mem j) ∧
      free_frames m = [] := by
  cases h : free_frames mem with
  | nil => rw [h] at h1; simp at h1
  | cons t rest =>
    rw [h] at h2
    simp only [List.length_cons] at h2
    have ht : t ∈ free_frames mem := by rw [h]; exact List.mem_cons_self _ _
    obtain ⟨ht1, ht64, ht0⟩ := (mem_free_frames mem t).mp ht
    refine ⟨_, new_process_exit_eq id c mem t rest h (by omega), ?_, ?_⟩
    · intro j hj
      rw [mark_frames_low t ht1 rest 0 _ j (by omega)]
      have hiff := mem_free_frames mem j
      rw [h, List.mem_cons] at hiff
      by_cases hr : j ∈ rest
      · have := hiff.mp (Or.inr hr)
        rw [if_pos hr, if_pos ⟨this.1, this.2.2⟩]
      · rw [if_neg hr]
        by_cases hjt : j = t
        · subst hjt
          rw [Mem.set_same, if_pos ⟨ht1, ht0⟩]
        · rw [Mem.set_other _ _ _ _ hjt]
          have : ¬ (1 ≤ j ∧ mem j = 0) := fun e =>
            (hiff.mpr ⟨e.1, hj, e.2⟩).elim hjt hr
          rw [if_neg this]
    · apply free_frames_mark_frames t ht1 rest 0 _ []
      rw [free_frames_set_head mem t rest h, List.append_nil]

/-- C6 amended, at a concrete input: frame 63 the only free frame, one page requested. -/
theorem new_process_oom_marks_all_free_witness :
    ∃ m, new_process 0 1 mem_last_free
        = .exit (.page 0 ((free_frames mem_last_free).length - 1)) m ∧
      (∀ j, j < 64 → m j = if 1 ≤ j ∧ mem_last_free j = 0 then 1 else mem_last_free j) ∧
      free_frames m = [] :=
  new_process_oom_marks_all_free mem_last_free 0 1 (by decide) (by decide)

/-- C7. No cross-process aliasing: when `new_process(a, ca)` and then `new_process(b, cb)`
both succeed (`a`, `b` in `[0, 192)`), the `ca+1` frames assigned by the first call (its
table frame and page-table entries `0..ca-1`) and the `cb+1` frames assigned by the second
are pairwise distinct, and none of them is frame 0. -/
theorem no_cross_process_aliasing (mem mem1 mem2 : Mem) (a b ca cb : Nat) (ha : a < 192)
    (hb : b < 192) (h1 : new_process a ca mem = .ok mem1)
    (h2 : new_process b cb mem1 = .ok mem2) :
    (assigned_frames mem1 a ca).length = ca + 1 ∧
      (assigned_frames mem2 b cb).length = cb + 1 ∧
      (assigned_frames mem1 a ca ++ assigned_frames mem2 b cb).Nodup ∧
      ∀ f ∈ assigned_frames mem1 a ca ++ assigned_frames mem2 b cb, f ≠ 0 := by
  obtain ⟨t, rest, h, hc⟩ := new_process_ok_inv a ca mem mem1 h1
  have hc : ca ≤ rest.length := by omega
  rw [new_process_ok_eq a ca ha mem t rest h hc] at h1
  injection h1 with hm
  subst hm
  obtain ⟨u, rest2, hu, hc2⟩ := new_process_ok_inv b cb _ mem2 h2
  have hc2 : cb ≤ rest2.length := by omega
  rw [new_process_ok_eq b cb hb _ u rest2 hu hc2] at h2
  injection h2 with hm
  subst hm
  have e1 := assigned_frames_created mem t rest ca a h hc ha
  have e2 := assigned_frames_created _ u rest2 cb b hu hc2 hb
  have hff := created_free_frames mem t rest ca a h
  have hdrop : free_frames (created mem t rest ca a) = (free_frames mem).drop (ca + 1) := by
    rw [hff, h]; rfl
  rw [hdrop] at e2
  have hsub : ((free_frames mem).take (ca + 1)
      ++ ((free_frames mem).drop (ca + 1)).take (cb + 1)).Sublist (free_frames mem) := by
    rw [← List.take_add]
    exact List.take_sublist _ _
  rw [e1, e2]
  refine ⟨?_, ?_, (free_frames_nodup mem).sublist hsub, ?_⟩
  · rw [h]; simp only [List.length_take, List.length_cons]; omega
  · rw [← hdrop, hu]; simp only [List.length_take, List.length_cons]; omega
  · intro f hf
    have := ((mem_free_frames mem f).mp (hsub.subset hf)).1
    omega

/-- C7 at a concrete input: processes 0 (2 pages) and 1 (3 pages) on fresh memory. -/
theorem no_cross_process_aliasing_witness :
    ∃ mem1 mem2, new_process 0 2 initialize_mem = .ok mem1 ∧
      new_process 1 3 mem1 = .ok mem2 ∧
      (assigned_frames mem1 0 2).length = 2 + 1 ∧
      (assigned_frames mem2 1 3).length = 3 + 1 ∧
      (assigned_frames mem1 0 2 ++ assigned_frames mem2 1 3).Nodup ∧
      ∀ f ∈ assigned_frames mem1 0 2 ++ assigned_frames mem2 1 3, f ≠ 0 :=
  have h1 := new_process_ok_eq 0 2 (by decide) initialize_mem 1 (List.range' 2 62)
    (by decide) (by decide)
  have h2 := new_process_ok_eq 1 3 (by decide)
    (created initialize_mem 1 (List.range' 2 62) 2 0) 4 (List.range' 5 59)
    (by decide) (by decide)
  ⟨_, _, h1, h2, no_cross_process_aliasing initialize_mem _ _ 0 1 2 3 (by decide) (by decide)
    h1 h2⟩

/-- C5, evaluated on the code. After `np 0 1`, `sb 0 0 1`, `kp 0`, `np 1 0` on fresh memory
62 of the bytes `mem[0..63]` are zero; `new_process(2, 0)` then succeeds, and after the
following `kill_process(2)` 63 of them are zero: the frame taken as page table still holds
the byte 1 stored there by process 0, and the kill frees frame 1, the table of process 1. -/
theorem create_kill_frees_foreign_frame :
    (run [.np 0 1, .sb 0 0 1, .kp 0, .np 1 0] initialize_mem).map
        (fun m => (free_count m, m (64 + 1), m 1)) = some (62, 1, 1) ∧
      (run [.np 0 1, .sb 0 0 1, .kp 0, .np 1 0, .np 2 0, .kp 2] initialize_mem).map
        (fun m => (free_count m, m (64 + 1), m 1)) = some (63, 1, 0) := by
  decide

/-- C8, evaluated on the code. After `np 0 1`, `kp 0`, `np 0 0`, `np 1 0`, `kp 0` on fresh
memory the directory entry of process 1 still names frame 2, whose free-map byte is 0: the
second kill of process 0 freed frame 2 through an entry left in its page table by the first
process 0. -/
theorem directory_entry_names_free_frame :
    (run [.np 0 1, .kp 0, .np 0 0, .np 1 0, .kp 0] initialize_mem).map
        (fun m => (m (64 + 1), m 2))
      = some (2, 0) := by
  decide

/-- C9, evaluated on the code. On fresh memory `mem[0]` is 1; after `kill_process(0)`, for
a process that was never created, `mem[0]` is 0: the directory entry read is 0 and
`free_process_page_table` clears the free-map byte of that frame. -/
theorem kill_unknown_process_frees_frame_zero :
    initialize_mem 0 = 1 ∧ get_page_table 0 initialize_mem = some 0 ∧
      (kill_process 0 initialize_mem).map (fun m => m 0) = some 0 := by
  decide

/-- C10. Out-of-memory condition of process creation: with `n` the number of zero bytes among
`mem[1..63]`, `new_process(id, c)` stops with an out-of-memory exit exactly when `n < c+1`;
when `n = 0` the context is "page table" and memory is unchanged (no data frame is
allocated), and when `1 ≤ n ≤ c` the context is "page k" with `k = n-1`. -/
theorem new_process_oom_condition (mem : Mem) (id : Int) (c : Nat) :
    ((∃ ctx m, new_process id c mem = .exit ctx m) ↔ (free_frames mem).length < c + 1) ∧
      ((free_frames mem).length = 0 →
        new_process id c mem = .exit (.page_table id) mem ∧
        (Oom.page_table id).message = "OOM: proc " ++ toString id ++ ": page table\n") ∧
      (1 ≤ (free_frames mem).length → (free_frames mem).length ≤ c →
        ∃ m, new_process id c mem = .exit (.page id ((free_frames mem).length - 1)) m ∧
          (Oom.page id ((free_frames mem).length - 1)).message
            = "OOM: proc " ++ toString id ++ ": page "
                ++ toString ((free_frames mem).length - 1) ++ "\n") := by
  have hc : ((c : Nat) : Int).toNat = c := by omega
  cases h : free_frames mem with
  | nil =>
    have hex := new_process_nil id c mem h
    refine ⟨⟨fun _ => by simp, fun _ => ⟨_, _, hex⟩⟩, fun _ => ⟨hex, rfl⟩, fun h1 => ?_⟩
    simp at h1
  | cons t rest =>
    simp only [List.length_cons]
    refine ⟨⟨?_, fun hlt => ⟨_, _, new_process_exit_eq id c mem t rest h (by omega)⟩⟩,
      fun h0 => by omega,
      fun _ hle => ⟨_, new_process_exit_eq id c mem t rest h (by omega), rfl⟩⟩
    rintro ⟨ctx, m, hex⟩
    by_contra hge
    rw [new_process_cons id c mem t rest h, hc, if_pos (by omega)] at hex
    cases hst : store (mark_frames t 0 (rest.take c) (mem.set t 1)) (64 + id) t with
    | none => rw [hst] at hex; cases hex
    | some m1 => rw [hst] at hex; cases hex

/-- C10 at a concrete input: fresh memory (63 free frames) and 63 pages requested. -/
theorem new_process_oom_condition_witness :
    ∃ m, new_process 0 63 initialize_mem
        = .exit (.page 0 ((free_frames initialize_mem).length - 1)) m ∧
      (Oom.page 0 ((free_frames initialize_mem).length - 1)).message
        = "OOM: proc " ++ toString (0 : Int) ++ ": page "
            ++ toString ((free_frames initialize_mem).length - 1) ++ "\n" :=
  (new_process_oom_condition initialize_mem 0 63).2.2 (by decide) (by decide)


/-- C11, refuted as stated: after `np 0 1` on fresh memory process 0 has the table frame 1
and page-table entry 0 for virtual page 1; `vaddr_to_paddr(0, 0x105)` returns the address 5
instead of failing, and `store_value(0, 0x105, 9)` writes 9 to `mem[5]`, a free-map byte. -/
theorem vaddr_to_paddr_unmapped_counterexample :
    (run [.np 0 1] initialize_mem).map (fun m => (m (64 + 0), m (1 <<< 8 ||| 261 >>> 8), m 5))
        = some (1, 0, 0) ∧
      (run [.np 0 1] initialize_mem).bind (vaddr_to_paddr 0 261) = some 5 ∧
      (run [.np 0 1, .sb 0 261 9] initialize_mem).map (fun m => m 5) = some 9 := by
  decide

/-- C11, amended. For a process id in `[0, 192)` with a nonzero directory entry and a
virtual address `v ≥ 0` whose page-table entry `mem[(table_frame << 8) | (v >> 8)]` lies
inside `mem` and is 0, `vaddr_to_paddr(id, v)` reports no error: it returns the physical
address `v & 255` (frame 0), and `store_value(id, v, b)` writes `b` modulo 256 to
`mem[v & 255]` and changes no other byte. -/
theorem vaddr_to_paddr_unmapped (mem : Mem) (id v : Nat) (hid : id < 192)
    (_ht : mem (64 + id) ≠ 0) (hin : mem (64 + id) <<< 8 ||| v >>> 8 < 16384)
    (h0 : mem (mem (64 + id) <<< 8 ||| v >>> 8) = 0) (b : Int) :
    vaddr_to_paddr id v mem = some ((v &&& 255 : Nat) : Int) ∧
      store_value id v b mem
        = some (((v &&& 255 : Nat) : Int), mem.set (v &&& 255) (b % 256).toNat) := by
  have h2 : load mem (get_address (mem (64 + id)) ((v : Int) >>> PAGE_SHIFT))
      = some 0 := by
    rw [int_shr_nat, get_address_nat_or, load_nat mem _ hin, h0]
  have htr : vaddr_to_paddr id v mem = some ((v &&& 255 : Nat) : Int) := by
    rw [vaddr_to_paddr_some id v mem _ _ (get_page_table_nat id mem (by omega)) h2]
    show some (get_address 0 (Int.land v 255)) = _
    rw [get_address_zero, show (255 : Int) = ((255 : Nat) : Int) by rfl, int_land_nat]
  refine ⟨htr, store_value_some _ _ _ _ _ _ htr (store_nat_addr mem _ b ?_)⟩
  rw [nat_and_255]
  omega

/-- C11 amended, at a concrete input: the memory after `np 0 1` on fresh memory (table
frame 1, page 0 in frame 2), process 0, address 0x105 in the unmapped page 1, value 9. -/
theorem vaddr_to_paddr_unmapped_witness :
    vaddr_to_paddr ((0 : Nat) : Int) ((261 : Nat) : Int)
        (created initialize_mem 1 (List.range' 2 62) 1 0) = some ((261 &&& 255 : Nat) : Int) ∧
      store_value ((0 : Nat) : Int) ((261 : Nat) : Int) 9
        (created initialize_mem 1 (List.range' 2 62) 1 0)
        = some (((261 &&& 255 : Nat) : Int),
            (created initialize_mem 1 (List.range' 2 62) 1 0).set (261 &&& 255)
              ((9 : Int) % 256).toNat) :=
  vaddr_to_paddr_unmapped (created initialize_mem 1 (List.range' 2 62) 1 0) 0 261 (by decide)
    (by decide) (by decide) (by decide) 9

/-- C12, refuted as stated: after `np 0 0` on fresh memory (`mem[0] = 1`, `mem[1] = 1`,
directory entry of process 0 equal to 1) the directory entry of process 7 is 0;
`kill_process(7)` returns without an error and leaves `mem[0] = 0` and `mem[1] = 0`. -/
theorem kill_process_unknown_counterexample :
    (run [.np 0 0] initialize_mem).map (fun m => (m (64 + 7), m 0, m 1, m (64 + 0)))
        = some (0, 1, 1, 1) ∧
      (run [.np 0 0, .kp 7] initialize_mem).map (fun m => (m (64 + 7), m 0, m 1, m (64 + 0)))
        = some (0, 0, 0, 1) := by
  decide

/-- C12, amended. For every memory state (of bytes) and every id in `[0, 192)` whose
directory entry `mem[64+id]` is 0, `kill_process(id)` reports no error and returns; the
directory entry of `id` is 0 afterwards and no byte outside frame 0 (no page table or data
byte, `mem[256..]`) is changed. -/
theorem kill_process_unknown (mem : Mem) (id : Nat) (hid : id < 192)
    (hb : ∀ a, mem a < 256) (h0 : mem (64 + id) = 0) :
    ∃ m, kill_process id mem = some m ∧ m (64 + id) = 0 ∧ ∀ a, 256 ≤ a → m a = mem a := by
  obtain ⟨m1, hm1, _, hhigh⟩ := free_process_pages_frame mem hb
  have hk := kill_process_nat id hid mem m1 (by omega) (by rw [h0]; exact hm1)
  refine ⟨_, hk, Mem.set_same _ _ _, ?_⟩
  intro a ha
  rw [Mem.set_other _ _ _ _ (by omega), Mem.set_other _ _ _ _ (by omega), hhigh a ha]

/-- C12 amended, at a concrete input: fresh memory, process 7. -/
theorem kill_process_unknown_witness :
    ∃ m, kill_process ((7 : Nat) : Int) initialize_mem = some m ∧ m (64 + 7) = 0 ∧
      ∀ a, 256 ≤ a → m a = initialize_mem a :=
  kill_process_unknown initialize_mem 7 (by decide)
    (by intro a; unfold initialize_mem; rw [Mem.set_apply]; split <;> decide) (by decide)


/-- C13. Allocator exhaustion: starting from the memory of `initialize_mem`, 63 consecutive
calls of `setup_page_table` return 1, 2, ..., 63 in that order, and the 64th call returns
the out-of-memory sentinel 0 and leaves memory unchanged. -/
theorem setup_page_table_exhaustion :
    (setup_page_table_times 63 initialize_mem).1 = List.range' 1 63 ∧
      (∀ f ∈ (setup_page_table_times 63 initialize_mem).1, f ≠ 0) ∧
      setup_page_table (setup_page_table_times 63 initialize_mem).2
        = (0, (setup_page_table_times 63 initialize_mem).2) := by
  have hfree : free_frames initialize_mem = List.range' 1 63 := by decide
  obtain ⟨e1, e2⟩ := setup_page_table_times_eq 63 initialize_mem (by rw [hfree]; decide)
  rw [hfree] at e1 e2
  have e1 : (setup_page_table_times 63 initialize_mem).1 = List.range' 1 63 := by
    rw [e1]; decide
  refine ⟨e1, ?_, setup_page_table_nil _ (by rw [e2]; decide)⟩
  rw [e1]
  decide

/-- C14. First-fit determinism after a free: when `1 ≤ k ≤ 63` and `mem[j] != 0` for all
`j` in `[1, k)`, setting the free-map byte `mem[k]` to 0 and then calling
`setup_page_table` returns exactly `k` and marks it allocated again; the same holds when
the byte is cleared by `free_process_page_table(id, k)` for an id in `[0, 192)`. -/
theorem setup_page_table_after_free (mem : Mem) (k : Nat) (h1 : 1 ≤ k) (h63 : k ≤ 63)
    (hl : ∀ j, 1 ≤ j → j < k → mem j ≠ 0) :
    setup_page_table (mem.set k 0) = (k, (mem.set k 0).set k 1) ∧
      ∀ id : Nat, id < 192 →
        ∃ m, free_process_page_table id k mem = some m ∧
          (setup_page_table m).1 = k ∧ (setup_page_table m).2 k = 1 := by
  have hset := setup_page_table_least (mem.set k 0) k h1 h63 (Mem.set_same _ _ _)
    (fun j hj1 hjk => by rw [Mem.set_other _ _ _ _ (by omega)]; exact hl j hj1 hjk)
  refine ⟨hset, fun id hid => ⟨_, free_process_page_table_nat id k hid (by omega) mem, ?_⟩⟩
  have hd := setup_page_table_least ((mem.set k 0).set (64 + id) 0) k h1 h63
    (by rw [Mem.set_other _ _ _ _ (by omega)]; exact Mem.set_same _ _ _)
    (fun j hj1 hjk => by
      rw [Mem.set_other _ _ _ _ (by omega), Mem.set_other _ _ _ _ (by omega)]
      exact hl j hj1 hjk)
  rw [hd]
  exact ⟨rfl, Mem.set_same _ _ _⟩

/-- C14 at a concrete input: frames 0..62 allocated, frame 5 freed and allocated again. -/
theorem setup_page_table_after_free_witness :
    setup_page_table (mem_last_free.set 5 0) = (5, (mem_last_free.set 5 0).set 5 1) ∧
      ∀ id : Nat, id < 192 →
        ∃ m, free_process_page_table id ((5 : Nat) : Int) mem_last_free = some m ∧
          (setup_page_table m).1 = 5 ∧ (setup_page_table m).2 5 = 1 :=
  setup_page_table_after_free mem_last_free 5 (by decide) (by decide)
    (by intro j h1 h5; unfold mem_last_free; rw [if_pos (by omega)]; decide)


/-- C15. Fresh-memory scenario: starting from the memory of `initialize_mem`, for every id in
`[0, 192)` and every `c` with `0 ≤ c ≤ 62`, `new_process(id, c)` uses table frame 1 and
maps virtual page `i` to frame `i+2` for every `i < c`; a following `kill_process(id)`
leaves frame 0 the only allocated frame (`mem[0] = 1`, `mem[1..63]` all 0) and the
directory entry of `id` equal to 0. -/
theorem fresh_memory_scenario (id c : Nat) (hid : id < 192) (hc : c ≤ 62) :
    ∃ mem1, new_process id c initialize_mem = .ok mem1 ∧ mem1 (64 + id) = 1 ∧
      (∀ i, i < c → mem1 (1 <<< 8 ||| i) = i + 2) ∧
      ∃ mem2, kill_process id mem1 = some mem2 ∧ mem2 0 = 1 ∧
        (∀ j, 1 ≤ j → j < 64 → mem2 j = 0) ∧ mem2 (64 + id) = 0 := by
  have hfree := free_frames_initialize_mem
  have hlen : c ≤ (List.range' 2 62).length := by simpa using hc
  have hdir := created_dir initialize_mem 1 (List.range' 2 62) c id
  have hslot : ∀ i, i < c →
      created initialize_mem 1 (List.range' 2 62) c id (1 * 256 + i) = i + 2 := by
    intro i hi
    rw [created_slot initialize_mem 1 _ c id hfree hlen hid i hi, getD_range 2 62 i (by omega)]
    omega
  have hempty : ∀ k, c ≤ k → k < 64 →
      created initialize_mem 1 (List.range' 2 62) c id (1 * 256 + k) = 0 := by
    intro k hk hk64
    rw [created_high initialize_mem 1 _ c id hfree _ (by omega) (by omega) (Or.inr (by omega)),
      initialize_mem_apply, if_neg (by omega)]
  have hlow := created_low initialize_mem 1 (List.range' 2 62) c id hfree
  refine ⟨_, new_process_ok_eq id c hid initialize_mem 1 _ hfree hlen, hdir, ?_, ?_⟩
  · intro i hi
    rw [shift_or_eq 1 i (by omega)]
    exact hslot i hi
  · have hbytes : ∀ k, k < 64 →
        created initialize_mem 1 (List.range' 2 62) c id (1 * 256 + k) < 256 := by
      intro k hk
      by_cases hkc : k < c
      · rw [hslot k hkc]; omega
      · rw [hempty k (by omega) hk]; omega
    refine ⟨_, kill_process_table id hid _ 1 hdir (by omega) (by omega) hbytes, ?_, ?_,
      Mem.set_same _ _ _⟩
    · rw [Mem.set_other _ _ _ _ (by omega), Mem.set_other _ _ _ _ (by omega)]
      have h0 : ¬ (0 = 1 ∨ 0 ∈ (List.range' 2 62).take c) := by
        rw [mem_take_range c 0 hc]; omega
      simp only [freed_by, ne_eq, not_true_eq_false, false_and, if_false]
      rw [hlow 0 (by omega), if_neg h0, initialize_mem_apply, if_pos rfl]
    · intro j hj1 hj64
      rw [Mem.set_other _ _ _ _ (by omega)]
      by_cases hj : j = 1
      · rw [hj]; exact Mem.set_same _ _ _
      · rw [Mem.set_other _ _ _ _ hj]
        unfold freed_by
        by_cases hjc : j < c + 2
        · have hmem : j ∈ (List.range' 0 64).map
              (fun k => created initialize_mem 1 (List.range' 2 62) c id (1 * 256 + k)) := by
            rw [List.mem_map]
            exact ⟨j - 2, List.mem_range'.mpr ⟨j - 2, by omega, by omega⟩, by
              rw [hslot (j - 2) (by omega)]; omega⟩
          rw [if_pos ⟨by omega, hmem⟩]
        · have hnot : ¬ (j = 1 ∨ j ∈ (List.range' 2 62).take c) := by
            rw [mem_take_range c j hc]; omega
          have hz : created initialize_mem 1 (List.range' 2 62) c id j = 0 := by
            rw [hlow j hj64, if_neg hnot, initialize_mem_apply, if_neg (by omega)]
          split
          · rfl
          · exact hz

/-- C15 at the input of the scenario: process 0 with 2 pages. -/
theorem fresh_memory_scenario_witness :
    ∃ mem1, new_process ((0 : Nat) : Int) ((2 : Nat) : Int) initialize_mem = .ok mem1 ∧
      mem1 (64 + 0) = 1 ∧ (∀ i, i < 2 → mem1 (1 <<< 8 ||| i) = i + 2) ∧
      ∃ mem2, kill_process ((0 : Nat) : Int) mem1 = some mem2 ∧ mem2 0 = 1 ∧
        (∀ j, 1 ≤ j → j < 64 → mem2 j = 0) ∧ mem2 (64 + 0) = 0 :=
  fresh_memory_scenario 0 2 (by decide) (by decide)


/-- C16, refuted as stated: after `np 0 1`, `kp 0`, `np 0 0`, `np 1 0`, `kp 0`, `np 5 0` on
fresh memory the directory entry of process 1 is frame 2 while frame 1 is allocated and
frame 2 is free; `new_process(1, 0)` then succeeds and takes frame 2 again, so the new
directory entry equals the old one. -/
theorem new_process_recreate_counterexample :
    (run [.np 0 1, .kp 0, .np 0 0, .np 1 0, .kp 0, .np 5 0] initialize_mem).map
        (fun m => (m (64 + 1), m 1, m 2)) = some (2, 1, 0) ∧
      (run [.np 0 1, .kp 0, .np 0 0, .np 1 0, .kp 0, .np 5 0, .np 1 0] initialize_mem).map
        (fun m => (m (64 + 1), m 1, m 2)) = some (2, 1, 1) := by
  decide

/-- C16, amended. For every memory state and id in `[0, 192)` whose directory entry is a
nonzero frame `t` that is marked allocated (`mem[t] != 0`), and every `c ≥ 0` for which
`new_process(id, c)` succeeds: the directory entry of `id` becomes the newly allocated
table frame `t'` with `t' != t`, and no byte that was nonzero before the call becomes zero;
in particular `t` and every marked frame listed in the old page table at `t` stay marked. -/
theorem new_process_recreate (mem mem1 : Mem) (id c : Nat) (hid : id < 192)
    (_ht : mem (64 + id) ≠ 0) (hal : mem (mem (64 + id)) ≠ 0)
    (hnew : new_process id c mem = .ok mem1) :
    mem1 (64 + id) ≠ mem (64 + id) ∧
      1 ≤ mem1 (64 + id) ∧ mem1 (64 + id) ≤ 63 ∧
      mem (mem1 (64 + id)) = 0 ∧ mem1 (mem1 (64 + id)) = 1 ∧
      (∀ a, mem a ≠ 0 → mem1 a ≠ 0) ∧
      mem1 (mem (64 + id)) ≠ 0 ∧
      (∀ v, v < 64 → mem (mem (mem (64 + id) <<< 8 ||| v)) ≠ 0 →
        mem1 (mem (mem (64 + id) <<< 8 ||| v)) ≠ 0) := by
  obtain ⟨t, rest, h, hc⟩ := new_process_ok_inv id c mem mem1 hnew
  have hc : c ≤ rest.length := by omega
  rw [new_process_ok_eq id c hid mem t rest h hc] at hnew
  injection hnew with hm
  subst hm
  have ht : t ∈ free_frames mem := by rw [h]; exact List.mem_cons_self _ _
  obtain ⟨ht1, ht64, ht0⟩ := (mem_free_frames mem t).mp ht
  have hnz := created_nonzero mem t rest c id h
  rw [created_dir]
  refine ⟨fun e => hal (e ▸ ht0), ht1, by omega, ht0, ?_, hnz, hnz _ hal,
    fun v _ hv => hnz _ hv⟩
  rw [created_low mem t rest c id h t ht64, if_pos (Or.inl rfl)]

/-- C16 amended, at a concrete input: process 0 created twice on fresh memory, the second
time with one page. -/
theorem new_process_recreate_witness :
    created initialize_mem 1 (List.range' 2 62) 0 0 (64 + 0) ≠ 0 ∧
      new_process ((0 : Nat) : Int) ((1 : Nat) : Int)
          (created initialize_mem 1 (List.range' 2 62) 0 0)
        = .ok (created (created initialize_mem 1 (List.range' 2 62) 0 0) 2
            (List.range' 3 61) 1 0) ∧
      created (created initialize_mem 1 (List.range' 2 62) 0 0) 2 (List.range' 3 61) 1 0
          (64 + 0)
        ≠ created initialize_mem 1 (List.range' 2 62) 0 0 (64 + 0) :=
  have hnew := new_process_ok_eq 0 1 (by decide)
    (created initialize_mem 1 (List.range' 2 62) 0 0) 2 (List.range' 3 61) (by decide)
    (by decide)
  ⟨by decide, hnew,
    (new_process_recreate (created initialize_mem 1 (List.range' 2 62) 0 0) _ 0 1 (by decide)
      (by decide) (by decide) hnew).1⟩

/-- C17, evaluated on the code. After `np 0 2`, `kp 0` on fresh memory, `new_process(1, 0)`
succeeds with table frame 1; the page table of process 1 has the nonzero entries 2 and 3 at
virtual pages 0 and 1, left there by process 0, so `print_page_table(1)` prints two pairs
for a process of zero pages, and frames 2 and 3 are free. -/
theorem new_page_table_keeps_old_entries :
    (run [.np 0 2, .kp 0, .np 1 0] initialize_mem).map
        (fun m => (m (64 + 1), m (1 <<< 8 ||| 0), m (1 <<< 8 ||| 1), m 2, m 3))
        = some (1, 2, 3, 0, 0) ∧
      (run [.np 0 2, .kp 0, .np 1 0] initialize_mem).bind (print_page_table 1)
        = some [(0, 2), (1, 3)] := by
  decide

/-- Isolation of a store of process `a` from process `b`, for non-negative virtual addresses
given as natural numbers. -/
theorem store_value_isolation_nat (mem mem1 mem2 : Mem) (a b ca cb : Nat) (ha : a < 192)
    (hb : b < 192) (hab : a ≠ b) (_hca : 1 ≤ ca) (_hcb : 1 ≤ cb)
    (h1 : new_process a ca mem = .ok mem1) (h2 : new_process b cb mem1 = .ok mem2)
    (v : Nat) (hv : v >>> 8 < ca) (x : Int) :
    ∃ (p : Nat) (mem3 : Mem), store_value a v x mem2 = some ((p : Int), mem3) ∧
      mem3 p = (x % 256).toNat ∧ (∀ addr, addr ≠ p → mem3 addr = mem2 addr) ∧
      p >>> 8 = mem2 (mem2 (64 + a) <<< 8 ||| v >>> 8) ∧
      p >>> 8 ∈ (assigned_frames mem1 a ca).tail ∧
      (∀ j, j < 256 → mem3 j = mem2 j) ∧
      (∀ o, o < 256 →
        mem3 (mem2 (64 + a) <<< 8 ||| o) = mem2 (mem2 (64 + a) <<< 8 ||| o)) ∧
      (∀ o, o < 256 →
        mem3 (mem2 (64 + b) <<< 8 ||| o) = mem2 (mem2 (64 + b) <<< 8 ||| o)) ∧
      (∀ w, w >>> 8 < cb → ∃ r, get_value b w mem2 = some r ∧ get_value b w mem3 = some r) := by
  obtain ⟨t, u, ra, rb, ht1, ht64, hu1, hu64, htu, hca62, hcb62, hra, hrb, hla, hlb, htail,
    hda, hdb, hsa, hsb⟩ := two_processes mem mem1 mem2 a b ca cb ha hb hab h1 h2
  rw [nat_shr_8] at hv
  have hfm : ra.getD (v / 256) 0 ∈ ra := getD_mem ra (v / 256) (by omega)
  obtain ⟨hf1, hf64, hft, hfu, hfb⟩ := hra _ hfm
  have hmod : v % 256 < 256 := Nat.mod_lt _ (by decide)
  have hslot := hsa (v / 256) hv
  have htr := vaddr_to_paddr_nat a v mem2 (by omega) (by omega) (by rw [hda]; omega)
  rw [hda, hslot] at htr
  have hst := store_nat_addr mem2 (ra.getD (v / 256) 0 * 256 + v % 256) x (by omega)
  refine ⟨ra.getD (v / 256) 0 * 256 + v % 256, _, store_value_some _ _ _ _ _ _ htr hst,
    Mem.set_same _ _ _, fun addr h => Mem.set_other _ _ _ _ h, ?_, ?_,
    fun j hj => Mem.set_other _ _ _ _ (by omega), ?_, ?_, ?_⟩
  · rw [nat_shr_8, nat_shr_8, hda, shift_or_eq t (v / 256) (by omega), hslot]
    omega
  · rw [htail, nat_shr_8,
      show (ra.getD (v / 256) 0 * 256 + v % 256) / 256 = ra.getD (v / 256) 0 by omega]
    exact hfm
  · intro o ho
    rw [hda, shift_or_eq t o ho]
    exact Mem.set_other _ _ _ _ (by omega)
  · intro o ho
    rw [hdb, shift_or_eq u o ho]
    exact Mem.set_other _ _ _ _ (by omega)
  · intro w hw
    rw [nat_shr_8] at hw
    have hgm : rb.getD (w / 256) 0 ∈ rb := getD_mem rb (w / 256) (by omega)
    obtain ⟨hg1, hg64, hgt, hgu⟩ := hrb _ hgm
    have hfg : ra.getD (v / 256) 0 ≠ rb.getD (w / 256) 0 := fun e => hfb (e ▸ hgm)
    have hwmod : w % 256 < 256 := Nat.mod_lt _ (by decide)
    have hslotb := hsb (w / 256) hw
    have htrb := vaddr_to_paddr_nat b w mem2 (by omega) (by omega) (by rw [hdb]; omega)
    rw [hdb, hslotb] at htrb
    have hdb3 : (mem2.set (ra.getD (v / 256) 0 * 256 + v % 256) (x % 256).toNat) (64 + b)
        = u := by
      rw [Mem.set_other _ _ _ _ (by omega), hdb]
    have hslot3 : (mem2.set (ra.getD (v / 256) 0 * 256 + v % 256) (x % 256).toNat)
        (u * 256 + w / 256) = rb.getD (w / 256) 0 := by
      rw [Mem.set_other _ _ _ _ (by omega), hslotb]
    have htrb3 := vaddr_to_paddr_nat b w
      (mem2.set (ra.getD (v / 256) 0 * 256 + v % 256) (x % 256).toNat) (by omega) (by omega)
      (by rw [hdb3]; omega)
    rw [hdb3, hslot3] at htrb3
    refine ⟨_, get_value_some _ _ _ _ _ htrb (load_nat mem2 _ (by omega)), ?_⟩
    refine get_value_some _ _ _ _ _ htrb3 ?_
    rw [load_nat _ _ (by omega), Mem.set_other _ _ _ _ (by omega)]

/-- C18, refuted as stated: after `np 0 2`, `np 1 3` on fresh memory the address `v = -1`
satisfies `v >> 8 < 2`, but `store_value(0, -1, 77)` reads the page-table entry at index
`(1 << 8) | -1 = -1`, outside `mem`: it writes no byte in a data frame of process 0. -/
theorem store_value_isolation_counterexample :
    ((-1 : Int) >>> (8 : Nat)) < ((2 : Nat) : Int) ∧
      (run [.np 0 2, .np 1 3] initialize_mem).map
        (fun m => (vaddr_to_paddr 0 (-1) m, (store_value 0 (-1) 77 m).map Prod.fst))
        = some (none, none) := by
  decide

/-- C18, amended. Process isolation of stores: when `new_process(a, ca)` and then
`new_process(b, cb)` both succeed for distinct ids `a`, `b` in `[0, 192)` and
`ca, cb ≥ 1`, a `store_value(a, v, x)` at an address `v` with `0 ≤ v` and `v >> 8 < ca`
writes exactly one byte, at a physical address `p` inside a data frame of `a`; every other
byte is unchanged, so the free map and the directory (frame 0), both page tables and the
result of `get_value(b, w)` for every `w` with `0 ≤ w` and `w >> 8 < cb` are the same as
before the store. -/
theorem store_value_isolation (mem mem1 mem2 : Mem) (a b ca cb : Nat) (ha : a < 192)
    (hb : b < 192) (hab : a ≠ b) (hca : 1 ≤ ca) (hcb : 1 ≤ cb)
    (h1 : new_process a ca mem = .ok mem1) (h2 : new_process b cb mem1 = .ok mem2)
    (v : Int) (hv0 : 0 ≤ v) (hv : v >>> (8 : Nat) < (ca : Int)) (x : Int) :
    ∃ (p : Nat) (mem3 : Mem), store_value a v x mem2 = some ((p : Int), mem3) ∧
      mem3 p = (x % 256).toNat ∧ (∀ addr, addr ≠ p → mem3 addr = mem2 addr) ∧
      p >>> 8 = mem2 (mem2 (64 + a) <<< 8 ||| (v >>> (8 : Nat)).toNat) ∧
      p >>> 8 ∈ (assigned_frames mem1 a ca).tail ∧
      (∀ j, j < 256 → mem3 j = mem2 j) ∧
      (∀ o, o < 256 →
        mem3 (mem2 (64 + a) <<< 8 ||| o) = mem2 (mem2 (64 + a) <<< 8 ||| o)) ∧
      (∀ o, o < 256 →
        mem3 (mem2 (64 + b) <<< 8 ||| o) = mem2 (mem2 (64 + b) <<< 8 ||| o)) ∧
      (∀ w : Int, 0 ≤ w → w >>> (8 : Nat) < (cb : Int) →
        ∃ r, get_value b w mem2 = some r ∧ get_value b w mem3 = some r) := by
  obtain ⟨n, rfl⟩ := Int.eq_ofNat_of_zero_le hv0
  rw [int_shr_nat] at hv
  obtain ⟨p, mem3, e1, e2, e3, e4, e5, e6, e7, e8, e9⟩ :=
    store_value_isolation_nat mem mem1 mem2 a b ca cb ha hb hab hca hcb h1 h2 n
      (Int.ofNat_lt.mp hv) x
  refine ⟨p, mem3, e1, e2, e3, ?_, e5, e6, e7, e8, ?_⟩
  · rw [int_shr_nat, Int.toNat_ofNat]
    exact e4
  · intro w hw0 hw
    obtain ⟨m, rfl⟩ := Int.eq_ofNat_of_zero_le hw0
    rw [int_shr_nat] at hw
    exact e9 m (Int.ofNat_lt.mp hw)

/-- C18 amended, at a concrete input: processes 0 (2 pages) and 1 (3 pages) on fresh memory,
process 0 stores 77 at address 0x105. -/
theorem store_value_isolation_witness :
    ∃ mem1 mem2, new_process ((0 : Nat) : Int) ((2 : Nat) : Int) initialize_mem = .ok mem1 ∧
      new_process ((1 : Nat) : Int) ((3 : Nat) : Int) mem1 = .ok mem2 ∧
      ∃ (p : Nat) (mem3 : Mem),
        store_value ((0 : Nat) : Int) 261 77 mem2 = some ((p : Int), mem3) ∧
        mem3 p = ((77 : Int) % 256).toNat ∧ (∀ addr, addr ≠ p → mem3 addr = mem2 addr) ∧
        p >>> 8 = mem2 (mem2 (64 + 0) <<< 8 ||| ((261 : Int) >>> (8 : Nat)).toNat) ∧
        p >>> 8 ∈ (assigned_frames mem1 0 2).tail ∧
        (∀ j, j < 256 → mem3 j = mem2 j) ∧
        (∀ o, o < 256 →
          mem3 (mem2 (64 + 0) <<< 8 ||| o) = mem2 (mem2 (64 + 0) <<< 8 ||| o)) ∧
        (∀ o, o < 256 →
          mem3 (mem2 (64 + 1) <<< 8 ||| o) = mem2 (mem2 (64 + 1) <<< 8 ||| o)) ∧
        (∀ w : Int, 0 ≤ w → w >>> (8 : Nat) < ((3 : Nat) : Int) →
          ∃ r, get_value ((1 : Nat) : Int) w mem2 = some r ∧
            get_value ((1 : Nat) : Int) w mem3 = some r) :=
  have h1 := new_process_ok_eq 0 2 (by decide) initialize_mem 1 (List.range' 2 62)
    (by decide) (by decide)
  have h2 := new_process_ok_eq 1 3 (by decide)
    (created initialize_mem 1 (List.range' 2 62) 2 0) 4 (List.range' 5 59)
    (by decide) (by decide)
  ⟨_, _, h1, h2, store_value_isolation initialize_mem _ _ 0 1 2 3 (by decide) (by decide)
    (by decide) (by decide) (by decide) h1 h2 261 (by decide) (by decide) 77⟩

end Ptsim
